import Mathlib

/-!
Workspace creation prompt: name helpers and orchestration.

A shallow embedding of `pkg/cmd/workspace/util/creation_data.go`.

* Go strings are lists of bytes (`GoString`); the standard-library functions the file
  calls (`slices.Contains`, `fmt.Sprintf`, `url.QueryUnescape`, `strings.ReplaceAll`,
  `filepath.Base`, `strings.ToLower`, `strings.TrimSuffix`, `regexp.ReplaceAllString`)
  are modelled on bytes and runes as the Go library defines them. The Unicode case tables
  behind `unicode.ToLower` are a parameter `caseTable`; ASCII-only input never reads it.
* The loop counters are Go `int`s; they stay far below `2^63` (the suffix search is bounded
  by `len(taken) + 1`), so they are natural numbers here.
* The two unbounded loops take a `fuel` argument bounding their iterations.
* The collaborators (wizard and forms) are functions of an outside world `W`; every step
  of a call is recorded in `Session.log`, so that statements can speak about the calls made.
* `config.Defaults` is a pointer that may be nil; dereferencing it in
  `newCreateProjectRequest` is the outcome `nilPanic`.
-/

namespace CreationData

/-- A Go `string`: an immutable sequence of bytes (each below 256). -/
abbrev GoString := List Nat

/-- The bytes of an ASCII literal. -/
def str (s : String) : GoString := s.toList.map Char.toNat

/-- Go `error` values seen by this package: `url.EscapeError` raised by
`url.QueryUnescape`, and any error handed back by a collaborator. -/
inductive Error where
  | EscapeError (s : GoString)
  | External (code : Nat)
  deriving DecidableEq, Repr

/-! Section: fmt.Sprintf("%s%d", s, i) -/

/-- Decimal digits of `n`, least significant first (`fuel` bounds the digit count). -/
def digitsRev : Nat → Nat → List Nat
  | 0, _ => []
  | fuel + 1, n => if n < 10 then [48 + n] else (48 + n % 10) :: digitsRev fuel (n / 10)

/-- The `%d` verb on a non-negative `int`: `strconv.Itoa`. -/
def itoa (n : Nat) : GoString := (digitsRev (n + 1) n).reverse

/-- Go `slices.Contains`. -/
def Contains (s : List GoString) (v : GoString) : Bool :=
  match s with
  | [] => false
  | x :: rest => if x = v then true else Contains rest v

/-- The `for { ... i++ }` loop of `GetSuggestedWorkspaceName`, entered with counter `i`;
`fuel` bounds the number of iterations and `none` means the bound was reached. -/
def suggestLoop (suggestion : GoString) (existingWorkspaceNames : List GoString) :
    Nat → Nat → Option GoString
  | 0, _ => none
  | fuel + 1, i =>
    let newSuggestion := suggestion ++ itoa i
    if !Contains existingWorkspaceNames newSuggestion then some newSuggestion
    else suggestLoop suggestion existingWorkspaceNames fuel (i + 1)

/-- Source: `GetSuggestedWorkspaceName` (creation_data.go:128-143). -/
def GetSuggestedWorkspaceName (fuel : Nat) (firstProjectName : GoString)
    (existingWorkspaceNames : List GoString) : Option GoString :=
  let suggestion := firstProjectName
  if !Contains existingWorkspaceNames suggestion then some suggestion
  else suggestLoop suggestion existingWorkspaceNames fuel 2

/-! Section: net/url.QueryUnescape -/

/-- Go `url.ishex`. -/
def ishex (c : Nat) : Bool :=
  (48 ≤ c && c ≤ 57) || (97 ≤ c && c ≤ 102) || (65 ≤ c && c ≤ 70)

/-- Go `url.unhex`. -/
def unhex (c : Nat) : Nat :=
  if 48 ≤ c ∧ c ≤ 57 then c - 48
  else if 97 ≤ c ∧ c ≤ 102 then c - 97 + 10
  else if 65 ≤ c ∧ c ≤ 70 then c - 65 + 10
  else 0

/-- First pass of `url.unescape` in query-component mode: counts the `%` escapes in `n`,
records a `+` in `hasPlus`, and fails with `EscapeError` of at most three bytes at the
first `%` that is not followed by two hexadecimal digits. -/
def scanEscapes : GoString → Nat → Bool → Except Error (Nat × Bool)
  | [], n, hasPlus => .ok (n, hasPlus)
  | c :: rest, n, hasPlus =>
    if c = 37 then
      match rest with
      | a :: b :: rest2 =>
        if ishex a && ishex b then scanEscapes rest2 (n + 1) hasPlus
        else .error (Error.EscapeError ((c :: rest).take 3))
      | _ => .error (Error.EscapeError ((c :: rest).take 3))
    else if c = 43 then scanEscapes rest n true
    else scanEscapes rest n hasPlus

/-- Second pass of `url.unescape` in query-component mode: `%XY` becomes the byte
`unhex(X)<<4 | unhex(Y)`, `+` becomes a space, every other byte is copied. It runs only
after the first pass succeeded, so a `%` always has two bytes after it; the last branch
of the inner match is never taken. -/
def unescapeBuild : GoString → GoString
  | [] => []
  | c :: rest =>
    if c = 37 then
      match rest with
      | a :: b :: rest2 => (((unhex a) <<< 4 ||| unhex b) % 256) :: unescapeBuild rest2
      | _ => []
    else if c = 43 then 32 :: unescapeBuild rest
    else c :: unescapeBuild rest

/-- Go `url.QueryUnescape`, as the pair `(string, error)`. -/
def QueryUnescape (s : GoString) : GoString × Option Error :=
  match scanEscapes s 0 false with
  | .error e => ([], some e)
  | .ok (n, hasPlus) => if n = 0 && !hasPlus then (s, none) else (unescapeBuild s, none)

/-- Go `strings.ReplaceAll(s, " ", "-")`: the pattern is one byte, so every byte 32
becomes 45. -/
def ReplaceAllSpaceHyphen (s : GoString) : GoString :=
  s.map (fun b => if b = 32 then 45 else b)

/-- Source: `GetSanitizedProjectName` (creation_data.go:145-153). -/
def GetSanitizedProjectName (projectName : GoString) : GoString × Option Error :=
  match QueryUnescape projectName with
  | (_, some err) => ([], some err)
  | (projectName, none) => (ReplaceAllSpaceHyphen projectName, none)

/-! Section: path/filepath.Base (Unix separator) -/

/-- The loop `for len(path) > 0 && path[len(path)-1] == '/'` of `filepath.Base`. -/
def stripTrailingSlashes (path : GoString) : GoString :=
  (path.reverse.dropWhile (fun b => b = 47)).reverse

/-- The part of `path` after its last `/` (the whole of it when it has none). -/
def lastElement (path : GoString) : GoString :=
  (path.reverse.takeWhile (fun b => b ≠ 47)).reverse

/-- Go `filepath.Base` with separator `/` and no volume name. -/
def Base (path : GoString) : GoString :=
  if path = [] then [46]
  else
    let path := lastElement (stripTrailingSlashes path)
    if path = [] then [47] else path

/-! Section: unicode/utf8 -/

/-- Go `utf8.RuneError`. -/
def RuneError : Nat := 0xFFFD

/-- Go `utf8.first` with `utf8.acceptRanges` for a byte of 0x80 or more: the encoded
size and the accepted range of the second byte, `none` for an invalid leading byte. -/
def firstByte (b : Nat) : Option (Nat × Nat × Nat) :=
  if 0xC2 ≤ b ∧ b ≤ 0xDF then some (2, 0x80, 0xBF)
  else if b = 0xE0 then some (3, 0xA0, 0xBF)
  else if 0xE1 ≤ b ∧ b ≤ 0xEC then some (3, 0x80, 0xBF)
  else if b = 0xED then some (3, 0x80, 0x9F)
  else if 0xEE ≤ b ∧ b ≤ 0xEF then some (3, 0x80, 0xBF)
  else if b = 0xF0 then some (4, 0x90, 0xBF)
  else if 0xF1 ≤ b ∧ b ≤ 0xF3 then some (4, 0x80, 0xBF)
  else if b = 0xF4 then some (4, 0x80, 0x8F)
  else none

/-- A UTF-8 continuation byte (`locb ≤ b ≤ hicb`). -/
def isCont (b : Nat) : Bool := 0x80 ≤ b && b ≤ 0xBF

/-- Go `utf8.DecodeRuneInString`: the first rune of `s` and its width in bytes; an
invalid or truncated encoding gives `(RuneError, 1)`, the empty string `(RuneError, 0)`. -/
def DecodeRuneInString (s : GoString) : Nat × Nat :=
  match s with
  | [] => (RuneError, 0)
  | s0 :: t =>
    if s0 < 0x80 then (s0, 1)
    else
      match firstByte s0 with
      | none => (RuneError, 1)
      | some (sz, lo, hi) =>
        if sz = 2 then
          match t with
          | s1 :: _ =>
            if lo ≤ s1 ∧ s1 ≤ hi then ((s0 &&& 0x1F) <<< 6 ||| (s1 &&& 0x3F), 2)
            else (RuneError, 1)
          | _ => (RuneError, 1)
        else if sz = 3 then
          match t with
          | s1 :: s2 :: _ =>
            if lo ≤ s1 ∧ s1 ≤ hi ∧ isCont s2 then
              ((s0 &&& 0x0F) <<< 12 ||| (s1 &&& 0x3F) <<< 6 ||| (s2 &&& 0x3F), 3)
            else (RuneError, 1)
          | _ => (RuneError, 1)
        else
          match t with
          | s1 :: s2 :: s3 :: _ =>
            if lo ≤ s1 ∧ s1 ≤ hi ∧ isCont s2 ∧ isCont s3 then
              ((s0 &&& 0x07) <<< 18 ||| (s1 &&& 0x3F) <<< 12 ||| (s2 &&& 0x3F) <<< 6
                ||| (s3 &&& 0x3F), 4)
            else (RuneError, 1)
          | _ => (RuneError, 1)

/-- The runes visited by `for _, c := range s`; `fuel` bounds the number of runes. -/
def runesAux : Nat → GoString → List Nat
  | 0, _ => []
  | fuel + 1, s =>
    match s with
    | [] => []
    | _ :: _ => (DecodeRuneInString s).1 :: runesAux fuel (s.drop (DecodeRuneInString s).2)

/-- The runes of `s` in order (a string has at most `len(s)` runes). -/
def runes (s : GoString) : List Nat := runesAux s.length s

/-- Go `utf8.AppendRune` on a non-negative rune. -/
def EncodeRune (r : Nat) : GoString :=
  if r ≤ 0x7F then [r]
  else if r ≤ 0x7FF then [0xC0 ||| (r >>> 6), 0x80 ||| (r &&& 0x3F)]
  else if 0x10FFFF < r ∨ (0xD800 ≤ r ∧ r ≤ 0xDFFF) then [0xEF, 0xBF, 0xBD]
  else if r ≤ 0xFFFF then
    [0xE0 ||| (r >>> 12), 0x80 ||| ((r >>> 6) &&& 0x3F), 0x80 ||| (r &&& 0x3F)]
  else
    [0xF0 ||| (r >>> 18), 0x80 ||| ((r >>> 12) &&& 0x3F), 0x80 ||| ((r >>> 6) &&& 0x3F),
      0x80 ||| (r &&& 0x3F)]

/-! Section: strings.ToLower, strings.TrimSuffix, regexp.ReplaceAllString -/

/-- Go `unicode.ToLower`; `caseTable` stands for `unicode.To(unicode.LowerCase, r)`,
the Unicode case tables consulted for runes above `unicode.MaxASCII`. -/
def unicodeToLower (caseTable : Nat → Nat) (r : Nat) : Nat :=
  if r ≤ 0x7F then (if 65 ≤ r ∧ r ≤ 90 then r + 32 else r) else caseTable r

/-- Go `strings.Map(mapping, s)` for a mapping without negative results: every rune of
`s`, an invalid byte counting as `RuneError`, is replaced by the encoding of its image
(the unchanged valid prefix that Go copies verbatim is its own re-encoding). -/
def Map (mapping : Nat → Nat) (s : GoString) : GoString :=
  (runes s).flatMap (fun c => EncodeRune (mapping c))

/-- Go `strings.ToLower`: ASCII-only strings take the byte-wise path, all others go
through `Map(unicode.ToLower, s)`. -/
def ToLower (caseTable : Nat → Nat) (s : GoString) : GoString :=
  if s.all (fun c => c < 0x80) then s.map (fun c => if 65 ≤ c ∧ c ≤ 90 then c + 32 else c)
  else Map (unicodeToLower caseTable) s

/-- Go `strings.HasSuffix`. -/
def HasSuffix (s suffix : GoString) : Bool := suffix.isSuffixOf s

/-- Go `strings.TrimSuffix`. -/
def TrimSuffix (s suffix : GoString) : GoString :=
  if HasSuffix s suffix then s.take (s.length - suffix.length) else s

/-- Membership of a rune in the class `[a-zA-Z0-9-]`. -/
def isSlugRune (r : Nat) : Bool :=
  (97 ≤ r && r ≤ 122) || (65 ≤ r && r ≤ 90) || (48 ≤ r && r ≤ 57) || r = 45

/-- The call `regexp.MustCompile("[^a-zA-Z0-9-]").ReplaceAllString(src, "-")`: every rune
of `src` outside the class, an invalid byte included, becomes one `-`. -/
def projectNameSlugRegexReplaceAll (src : GoString) : GoString :=
  (runes src).map (fun r => if isSlugRune r then r else 45)

/-- Source: `GetProjectNameFromRepo` (creation_data.go:123-126). -/
def GetProjectNameFromRepo (caseTable : Nat → Nat) (repoUrl : GoString) : GoString :=
  projectNameSlugRegexReplaceAll
    (TrimSuffix (ToLower caseTable (Base repoUrl)) (str ".git"))

/-- The order of operations the specification words give for `SlugifyFromURL`: last path
segment, strip a trailing `.git`, lower-case, replace. -/
def SlugifyFromURL_spec (caseTable : Nat → Nat) (url : GoString) : GoString :=
  projectNameSlugRegexReplaceAll
    (ToLower caseTable (TrimSuffix (Base url) (str ".git")))

/-- Whether a string starts with two hexadecimal digits. -/
def startsWithTwoHex : GoString → Bool
  | a :: b :: _ => ishex a && ishex b
  | _ => false

/-- Whether some `%` of the string is not followed by two hexadecimal digits. -/
def hasMalformedEscape : GoString → Bool
  | [] => false
  | c :: rest => (c = 37 && !startsWithTwoHex rest) || hasMalformedEscape rest

/-- The value of a hexadecimal digit: `0`-`9` are 0 to 9, `a`-`f` and `A`-`F` are 10 to
15 (0 for any other byte). -/
def hexValue (c : Nat) : Nat :=
  if 48 ≤ c ∧ c ≤ 57 then c - 48
  else if 97 ≤ c ∧ c ≤ 102 then c - 87
  else if 65 ≤ c ∧ c ≤ 70 then c - 55
  else 0

/-- From the specification's words (URL-decode the input, fail with `DecodeError` on a
malformed percent-encoding): percent-decoding in one pass, `%XY` becoming the byte with
hexadecimal digits `X`, `Y` and every other byte, `+` included, staying as it is; `none`
is `DecodeError`. -/
def percentDecode_spec : GoString → Option GoString
  | [] => some []
  | c :: rest =>
    if c = 37 then
      match rest with
      | a :: b :: rest2 =>
        if ishex a && ishex b then
          (percentDecode_spec rest2).map (fun t => (16 * hexValue a + hexValue b) :: t)
        else none
      | _ => none
    else (percentDecode_spec rest).map (fun t => c :: t)

/-- From the specification's words: `SanitizeProjectName`, URL-decode then replace every
space with a hyphen; `none` is `DecodeError`. -/
def SanitizeProjectName_spec (name : GoString) : Option GoString :=
  (percentDecode_spec name).map (fun d => d.map (fun b => if b = 32 then 45 else b))

/-- Decoding of a URL query component in one pass: percent-decoding as in
`percentDecode_spec`, and in addition every `+` becomes a space. -/
def queryDecode : GoString → Option GoString
  | [] => some []
  | c :: rest =>
    if c = 37 then
      match rest with
      | a :: b :: rest2 =>
        if ishex a && ishex b then
          (queryDecode rest2).map (fun t => (16 * hexValue a + hexValue b) :: t)
        else none
      | _ => none
    else if c = 43 then (queryDecode rest).map (fun t => 32 :: t)
    else (queryDecode rest).map (fun t => c :: t)

/-- The number a list of ASCII digits, least significant first, denotes. -/
def valRev : List Nat → Nat
  | [] => 0
  | d :: ds => (d - 48) + 10 * valRev ds

/-! Section: Data model of the creation prompt -/

/-- The Go type `apiclient.GitRepository`: the display name read by the prompt (the value
behind `*providerRepo.Name`) and the URL that identifies the repository. -/
structure GitRepository where
  Name : GoString
  Url : GoString
  deriving DecidableEq, Repr

/-- The Go type `apiclient.GitProvider`. -/
structure GitProvider where
  Id : GoString
  deriving DecidableEq, Repr

/-- The Go type `create.ProjectDefaults`: the fields read by `newCreateProjectRequest`. -/
structure ProjectDefaults where
  Image : Option GoString
  ImageUser : Option GoString
  PostStartCommands : List GoString
  deriving DecidableEq, Repr

/-- The Go type `apiclient.CreateWorkspaceRequestProject`; `Source` is `Source.Repository`,
`Build` is always the empty `ProjectBuild` and is left out. -/
structure CreateWorkspaceRequestProject where
  Name : GoString
  Source : GitRepository
  Image : Option GoString
  User : Option GoString
  PostStartCommands : List GoString
  EnvVars : List (GoString × GoString)
  deriving DecidableEq, Repr

/-- The Go type `CreateDataPromptConfig`; `ApiClient` is an opaque handle that is only
passed on, `Defaults` is the pointer `*create.ProjectDefaults`, `none` being nil. -/
structure CreateDataPromptConfig where
  ExistingWorkspaceNames : List GoString
  UserGitProviders : List GitProvider
  Manual : Bool
  MultiProject : Bool
  ApiClient : Nat
  Defaults : Option ProjectDefaults

/-- The three lookup maps `selectedRepos`, `disabledNamespaces`, `disabledGitProviders`
created by `GetCreationDataFromPrompt` and mutated only by the collaborators. -/
structure Selection where
  selectedRepos : List (GoString × Bool)
  disabledNamespaces : List (GoString × Bool)
  disabledGitProviders : List (GoString × Bool)
  deriving DecidableEq, Repr

/-- The external collaborators, as functions of their arguments and of the outside world
`W` (user and network); each returns its Go results, the maps it was handed as it leaves
them, and the new outside world. A repository returned without error is non-nil, except
from the wizard, whose `none` is the nil repository the source tests for. -/
structure Collaborators (W : Type) where
  getRepositoryFromWizard : List GitProvider → Nat → Selection → W →
    Except Error (Option GitRepository) × Selection × W
  GetRepositoryFromUrlInput : Bool → Nat → List (GoString × Bool) → W →
    Except Error GitRepository × List (GoString × Bool) × W
  RunAdditionalProjectRepoForm : Nat → Nat → List (GoString × Bool) → W →
    Except Error (GitRepository × Bool) × List (GoString × Bool) × W
  RunAddMoreProjectsForm : W → Except Error Bool × W
  RunSubmissionForm : GoString → GoString → List GoString →
    List CreateWorkspaceRequestProject → Option ProjectDefaults → W →
    (GoString × List CreateWorkspaceRequestProject × Option Error) × W

deriving instance DecidableEq for Except

/-- One step taken by `GetCreationDataFromPrompt`, with the result it got: a collaborator
call (for the loop's calls with the slot index `i` of the iteration) or a call of
`GetSanitizedProjectName`. -/
inductive Event where
  | wizard (slot : Nat) (result : Except Error (Option GitRepository))
  | urlInput (result : Except Error GitRepository)
  | additionalForm (slot : Nat) (result : Except Error (GitRepository × Bool))
  | addMoreForm (slot : Nat) (result : Except Error Bool)
  | sanitize (name : GoString) (result : GoString × Option Error)
  | submission (suggestedName : GoString) (projects : List CreateWorkspaceRequestProject)
      (result : Option Error)
  deriving DecidableEq

/-- The error a step returned, if any. -/
def Event.err : Event → Option Error
  | .wizard _ (.error e) => some e
  | .urlInput (.error e) => some e
  | .additionalForm _ (.error e) => some e
  | .addMoreForm _ (.error e) => some e
  | .sanitize _ (_, some e) => some e
  | .submission _ _ (some e) => some e
  | _ => none

/-- The repository a step acquired, if any. -/
def Event.repo : Event → Option GitRepository
  | .wizard _ (.ok (some r)) => some r
  | .urlInput (.ok r) => some r
  | .additionalForm _ (.ok (r, _)) => some r
  | _ => none

/-- The continuation decision a step of the loop obtained, with its slot index. -/
def Event.decision : Event → Option (Nat × Bool)
  | .additionalForm i (.ok (_, more)) => some (i, more)
  | .addMoreForm i (.ok more) => some (i, more)
  | _ => none

/-- Whether a step is a call of the provider wizard. -/
def Event.isWizard : Event → Bool
  | .wizard _ _ => true
  | _ => false

/-- Whether a step is a call of a collaborator (every step but a name sanitisation). -/
def Event.isCall : Event → Bool
  | .sanitize _ _ => false
  | _ => true

/-- Whether a step is a call of the URL-input form. -/
def Event.isUrlInput : Event → Bool
  | .urlInput _ => true
  | _ => false

/-- The arguments and the result of a call of the submission form. -/
def Event.submitted : Event →
    Option (GoString × List CreateWorkspaceRequestProject × Option Error)
  | .submission suggestedName projects result => some (suggestedName, projects, result)
  | _ => none

/-- No step of the list returned an error. -/
def Clean (steps : List Event) : Prop := ∀ ev ∈ steps, ev.err = none

/-- The last step of the list returned the error `e` and no earlier step returned one. -/
def FailsWith (steps : List Event) (e : Error) : Prop :=
  ∃ pre ev, steps = pre ++ [ev] ∧ Clean pre ∧ ev.err = some e

/-- The running state of one call: the outside world, the three maps, and the steps
taken so far in order. -/
structure Session (W : Type) where
  world : W
  sel : Selection
  log : List Event

/-- What a call of `GetCreationDataFromPrompt` does: it returns the Go triple
`(string, []CreateWorkspaceRequestProject, error)`, with `[]` for the nil slice; or a loop
reached its iteration bound (`outOfFuel`); or `projectList[0]` was out of range
(`indexPanic`); or the nil `config.Defaults` was dereferenced (`nilPanic`). -/
inductive Outcome where
  | returned (workspaceName : GoString) (projects : List CreateWorkspaceRequestProject)
      (err : Option Error)
  | outOfFuel
  | indexPanic
  | nilPanic
  deriving DecidableEq

/-- How the additional-project loop ends. -/
inductive LoopExit where
  | done (projectList : List CreateWorkspaceRequestProject)
  | failed (err : Error)
  | outOfFuel
  | nilPanic

/-- The struct literal of `newCreateProjectRequest` (lines 107-117) for the defaults that
`config.Defaults` points to. -/
def projectRequest (defaults : ProjectDefaults) (providerRepo : GitRepository)
    (providerRepoName : GoString) : CreateWorkspaceRequestProject :=
  { Name := providerRepoName
    Source := providerRepo
    Image := defaults.Image
    User := defaults.ImageUser
    PostStartCommands := defaults.PostStartCommands
    EnvVars := [] }

/-- Source: `newCreateProjectRequest` (creation_data.go:106-121); `none` is the panic of
`config.Defaults.Image` on a nil `config.Defaults`. -/
def newCreateProjectRequest (config : CreateDataPromptConfig) (providerRepo : GitRepository)
    (providerRepoName : GoString) : Option CreateWorkspaceRequestProject :=
  match config.Defaults with
  | none => none
  | some defaults => some (projectRequest defaults providerRepo providerRepoName)

/-- The guard `!config.Manual && config.UserGitProviders != nil &&
len(config.UserGitProviders) > 0`. -/
def wizardEnabled (config : CreateDataPromptConfig) : Bool :=
  !config.Manual && !config.UserGitProviders.isEmpty

/-- Records a step. -/
def Session.push {W : Type} (s : Session W) (ev : Event) : Session W :=
  { s with log := s.log ++ [ev] }

/-- The wizard call of slot `i` (creation_data.go:42-47 and 68-73): skipped, leaving the
repository nil, when the guard is false. -/
def callWizard {W : Type} (c : Collaborators W) (config : CreateDataPromptConfig) (i : Nat)
    (s : Session W) : Except Error (Option GitRepository) × Session W :=
  if wizardEnabled config then
    let r := c.getRepositoryFromWizard config.UserGitProviders i s.sel s.world
    (r.1, { world := r.2.2, sel := r.2.1, log := s.log ++ [Event.wizard i r.1] })
  else (.ok none, s)

/-- The call `create.GetRepositoryFromUrlInput(config.MultiProject, config.ApiClient,
selectedRepos)`. -/
def callUrlInput {W : Type} (c : Collaborators W) (config : CreateDataPromptConfig)
    (s : Session W) : Except Error GitRepository × Session W :=
  let r := c.GetRepositoryFromUrlInput config.MultiProject config.ApiClient
    s.sel.selectedRepos s.world
  (r.1, { world := r.2.2, sel := { s.sel with selectedRepos := r.2.1 },
          log := s.log ++ [Event.urlInput r.1] })

/-- The call `create.RunAdditionalProjectRepoForm(i, config.ApiClient, selectedRepos)`. -/
def callAdditionalForm {W : Type} (c : Collaborators W) (config : CreateDataPromptConfig)
    (i : Nat) (s : Session W) : Except Error (GitRepository × Bool) × Session W :=
  let r := c.RunAdditionalProjectRepoForm i config.ApiClient s.sel.selectedRepos s.world
  (r.1, { world := r.2.2, sel := { s.sel with selectedRepos := r.2.1 },
          log := s.log ++ [Event.additionalForm i r.1] })

/-- The call `create.RunAddMoreProjectsForm()` made in slot `i`. -/
def callAddMoreForm {W : Type} (c : Collaborators W) (i : Nat) (s : Session W) :
    Except Error Bool × Session W :=
  let r := c.RunAddMoreProjectsForm s.world
  (r.1, { s with world := r.2, log := s.log ++ [Event.addMoreForm i r.1] })

/-- The call `GetSanitizedProjectName(*providerRepo.Name)`, recorded as a step. -/
def callSanitize {W : Type} (providerRepo : GitRepository) (s : Session W) :
    (GoString × Option Error) × Session W :=
  (GetSanitizedProjectName providerRepo.Name,
    s.push (Event.sanitize providerRepo.Name (GetSanitizedProjectName providerRepo.Name)))

/-- Lines 42-54: the repository of the first project, from the wizard or, when the wizard
was skipped or gave none, from the URL-input form. -/
def acquireFirst {W : Type} (c : Collaborators W) (config : CreateDataPromptConfig)
    (s : Session W) : Except Error GitRepository × Session W :=
  match callWizard c config 0 s with
  | (.error err, s1) => (.error err, s1)
  | (.ok (some providerRepo), s1) => (.ok providerRepo, s1)
  | (.ok none, s1) => callUrlInput c config s1

/-- Lines 66-85: the repository of slot `i` and the continuation decision `addMore`, both
from the additional-project form when the wizard was skipped or gave none, otherwise the
wizard's repository and the decision of the add-more form. -/
def acquireAdditional {W : Type} (c : Collaborators W) (config : CreateDataPromptConfig)
    (i : Nat) (s : Session W) : Except Error (GitRepository × Bool) × Session W :=
  match callWizard c config i s with
  | (.error err, s1) => (.error err, s1)
  | (.ok none, s1) => callAdditionalForm c config i s1
  | (.ok (some providerRepo), s1) =>
    match callAddMoreForm c i s1 with
    | (.error err, s2) => (.error err, s2)
    | (.ok addMore, s2) => (.ok (providerRepo, addMore), s2)

/-- The loop `for i := 2; addMore; i++` (creation_data.go:65-93), entered at slot `i`
with `addMore` true; `fuel` bounds the number of iterations. -/
def additionalProjects {W : Type} (c : Collaborators W) (config : CreateDataPromptConfig) :
    Nat → Nat → List CreateWorkspaceRequestProject → Session W → LoopExit × Session W
  | 0, _, _, s => (.outOfFuel, s)
  | fuel + 1, i, projectList, s =>
    match acquireAdditional c config i s with
    | (.error err, s1) => (.failed err, s1)
    | (.ok (providerRepo, addMore), s1) =>
      match callSanitize providerRepo s1 with
      | ((_, some err), s2) => (.failed err, s2)
      | ((providerRepoName, none), s2) =>
        match newCreateProjectRequest config providerRepo providerRepoName with
        | none => (.nilPanic, s2)
        | some project =>
          if addMore then additionalProjects c config fuel (i + 1) (projectList ++ [project]) s2
          else (.done (projectList ++ [project]), s2)

/-- Lines 96-103: the suggested name from `projectList[0].Name`, then the submission
form, whose edits of the workspace name and of the project list are returned. -/
def submit {W : Type} (fuel : Nat) (c : Collaborators W) (config : CreateDataPromptConfig)
    (projectList : List CreateWorkspaceRequestProject) (s : Session W) :
    Outcome × Session W :=
  match projectList with
  | [] => (.indexPanic, s)
  | first :: _ =>
    match GetSuggestedWorkspaceName fuel first.Name config.ExistingWorkspaceNames with
    | none => (.outOfFuel, s)
    | some suggestedName =>
      let r := c.RunSubmissionForm [] suggestedName config.ExistingWorkspaceNames
        projectList config.Defaults s.world
      let s1 : Session W :=
        { s with world := r.2
                 log := s.log ++ [Event.submission suggestedName projectList r.1.2.2] }
      match r.1.2.2 with
      | some err => (.returned [] [] (some err), s1)
      | none => (.returned r.1.1 r.1.2.1 none, s1)

/-- Source: `GetCreationDataFromPrompt` (creation_data.go:27-104), run from the outside
world `w`; `fuel` bounds the iterations of each loop. -/
def GetCreationDataFromPrompt {W : Type} (fuel : Nat) (c : Collaborators W)
    (config : CreateDataPromptConfig) (w : W) : Outcome × Session W :=
  let s0 : Session W :=
    { world := w
      sel := { selectedRepos := [], disabledNamespaces := [], disabledGitProviders := [] }
      log := [] }
  match acquireFirst c config s0 with
  | (.error err, s1) => (.returned [] [] (some err), s1)
  | (.ok providerRepo, s1) =>
    match callSanitize providerRepo s1 with
    | ((_, some err), s2) => (.returned [] [] (some err), s2)
    | ((providerRepoName, none), s2) =>
      match newCreateProjectRequest config providerRepo providerRepoName with
      | none => (.nilPanic, s2)
      | some project =>
        if config.MultiProject then
          match additionalProjects c config fuel 2 [project] s2 with
          | (.failed err, s3) => (.returned [] [] (some err), s3)
          | (.outOfFuel, s3) => (.outOfFuel, s3)
          | (.nilPanic, s3) => (.nilPanic, s3)
          | (.done projectList, s3) => submit fuel c config projectList s3
        else submit fuel c config [project] s2

/-! Section: A scripted outside world, for concrete runs -/

/-- Collaborators that answer from a script: the world is the list of add-more answers
still to give; the wizard is never asked for more than `none`, the URL form returns the
repository `first`, the additional-project form returns `next` with the next scripted
answer, and the submission form confirms the suggested name. -/
def scripted (first next : GitRepository) : Collaborators (List Bool) where
  getRepositoryFromWizard := fun _ _ sel w => (.ok none, sel, w)
  GetRepositoryFromUrlInput := fun _ _ m w => (.ok first, m, w)
  RunAdditionalProjectRepoForm := fun _ _ m w => (.ok (next, w.headD false), m, w.tail)
  RunAddMoreProjectsForm := fun w => (.ok (w.headD false), w.tail)
  RunSubmissionForm := fun _ suggested _ projects _ w => ((suggested, projects, none), w)

/-- Collaborators whose additional-project form fails with error code 7. -/
def failingSecond (first : GitRepository) : Collaborators Unit where
  getRepositoryFromWizard := fun _ _ sel w => (.ok none, sel, w)
  GetRepositoryFromUrlInput := fun _ _ m w => (.ok first, m, w)
  RunAdditionalProjectRepoForm := fun _ _ m w => (.error (Error.External 7), m, w)
  RunAddMoreProjectsForm := fun w => (.ok false, w)
  RunSubmissionForm := fun _ suggested _ projects _ w => ((suggested, projects, none), w)

/-- Project defaults with no image, no user and no commands. -/
def plainDefaults : ProjectDefaults :=
  { Image := none, ImageUser := none, PostStartCommands := [] }

/-- A configuration without providers, with `plainDefaults`. -/
def plainConfig (existing : List GoString) (manual multi : Bool) : CreateDataPromptConfig :=
  { ExistingWorkspaceNames := existing
    UserGitProviders := []
    Manual := manual
    MultiProject := multi
    ApiClient := 0
    Defaults := some plainDefaults }

/-! Section: Lemmas on decimal formatting and membership -/

theorem valRev_digitsRev (fuel n : Nat) (h : n < fuel) : valRev (digitsRev fuel n) = n := by
  induction fuel generalizing n with
  | zero => omega
  | succ f ih =>
    unfold digitsRev
    split
    · simp [valRev]
    · have hlt : n / 10 < f := by omega
      simp only [valRev, ih _ hlt]
      omega

theorem itoa_injective : Function.Injective itoa := by
  intro a b hab
  have h : digitsRev (a + 1) a = digitsRev (b + 1) b := by
    simpa [itoa] using hab
  have ha := valRev_digitsRev (a + 1) a (by omega)
  have hb := valRev_digitsRev (b + 1) b (by omega)
  rw [h] at ha
  omega

theorem itoa_ne_nil (n : Nat) : itoa n ≠ [] := by
  unfold itoa digitsRev
  split <;> simp

theorem Contains_eq_true_iff (s : List GoString) (v : GoString) :
    Contains s v = true ↔ v ∈ s := by
  induction s with
  | nil => simp [Contains]
  | cons x rest ih =>
    unfold Contains
    by_cases hx : x = v
    · simp [hx]
    · have hx2 : ¬ v = x := fun h => hx h.symm
      simp [hx, hx2, ih]

theorem Contains_eq_false_iff (s : List GoString) (v : GoString) :
    Contains s v = false ↔ v ∉ s := by
  rw [← Contains_eq_true_iff]; simp

/-- The loop returns the first free suffix at or after its counter, when the fuel
reaches it. -/
theorem suggestLoop_first_free (cand : GoString) (taken : List GoString) (fuel i m : Nat)
    (him : i ≤ m) (hm : m < i + fuel) (hfree : cand ++ itoa m ∉ taken)
    (hbusy : ∀ j, i ≤ j → j < m → cand ++ itoa j ∈ taken) :
    suggestLoop cand taken fuel i = some (cand ++ itoa m) := by
  induction fuel generalizing i with
  | zero => omega
  | succ f ih =>
    unfold suggestLoop
    by_cases hi : i = m
    · subst hi
      simp [(Contains_eq_false_iff taken _).2 hfree]
    · have hin : cand ++ itoa i ∈ taken := hbusy i (le_refl _) (by omega)
      simp only [(Contains_eq_true_iff taken _).2 hin, Bool.not_true, Bool.false_eq_true,
        if_false]
      exact ih (i + 1) (by omega) (by omega) (fun j h1 h2 => hbusy j (by omega) h2)

/-- Pigeonhole: a taken candidate leaves a free suffix among `2 .. len(taken) + 1`. -/
theorem exists_free_suffix (cand : GoString) (taken : List GoString) (hc : cand ∈ taken) :
    ∃ m, 2 ≤ m ∧ m ≤ taken.length + 1 ∧ cand ++ itoa m ∉ taken := by
  by_contra hcon
  push_neg at hcon
  have hinj : Set.InjOn (fun i => cand ++ itoa i) (Finset.Icc 2 (taken.length + 1) : Finset Nat) := by
    intro a _ b _ hab
    exact itoa_injective (List.append_cancel_left hab)
  have hsub : (Finset.Icc 2 (taken.length + 1)).image (fun i => cand ++ itoa i)
      ⊆ taken.toFinset.erase cand := by
    intro x hx
    rcases Finset.mem_image.1 hx with ⟨i, hi, rfl⟩
    rw [Finset.mem_Icc] at hi
    refine Finset.mem_erase.2 ⟨?_, List.mem_toFinset.2 (hcon i hi.1 hi.2)⟩
    intro h
    have h2 : cand ++ itoa i = cand ++ [] := by simpa using h
    exact itoa_ne_nil i (List.append_cancel_left h2)
  have hcard := Finset.card_le_card hsub
  rw [Finset.card_image_of_injOn hinj, Finset.card_erase_of_mem (List.mem_toFinset.2 hc)] at hcard
  have h1 : taken.toFinset.card ≤ taken.length := List.toFinset_card_le taken
  have h2 : 0 < taken.toFinset.card := Finset.card_pos.2 ⟨cand, List.mem_toFinset.2 hc⟩
  simp only [Nat.card_Icc] at hcard
  omega

/-- The least free suffix, with its bounds. -/
theorem exists_least_free_suffix (cand : GoString) (taken : List GoString)
    (hc : cand ∈ taken) :
    ∃ m, 2 ≤ m ∧ m ≤ taken.length + 1 ∧ cand ++ itoa m ∉ taken ∧
      ∀ j, 2 ≤ j → j < m → cand ++ itoa j ∈ taken := by
  classical
  have hex : ∃ m, 2 ≤ m ∧ cand ++ itoa m ∉ taken := by
    obtain ⟨m, h1, _, h3⟩ := exists_free_suffix cand taken hc
    exact ⟨m, h1, h3⟩
  obtain ⟨m0, h1, h2, h3⟩ := exists_free_suffix cand taken hc
  refine ⟨Nat.find hex, (Nat.find_spec hex).1, ?_, (Nat.find_spec hex).2, ?_⟩
  · exact le_trans (Nat.find_min' hex ⟨h1, h3⟩) h2
  · intro j hj hlt
    by_contra hnot
    exact Nat.find_min hex hlt ⟨hj, hnot⟩

/-- What `GetSuggestedWorkspaceName` returns for a taken candidate, given fuel. -/
theorem suggested_of_taken (fuel : Nat) (cand : GoString) (taken : List GoString)
    (hfuel : taken.length ≤ fuel) (hc : cand ∈ taken) :
    ∃ m, 2 ≤ m ∧ m ≤ taken.length + 1 ∧ cand ++ itoa m ∉ taken ∧
      (∀ j, 2 ≤ j → j < m → cand ++ itoa j ∈ taken) ∧
      GetSuggestedWorkspaceName fuel cand taken = some (cand ++ itoa m) := by
  obtain ⟨m, h1, h2, h3, h4⟩ := exists_least_free_suffix cand taken hc
  refine ⟨m, h1, h2, h3, h4, ?_⟩
  unfold GetSuggestedWorkspaceName
  simp only [(Contains_eq_true_iff taken _).2 hc, Bool.not_true, Bool.false_eq_true, if_false]
  exact suggestLoop_first_free cand taken fuel 2 m h1 (by omega) h3 h4

theorem suggested_of_free (fuel : Nat) (cand : GoString) (taken : List GoString)
    (hc : cand ∉ taken) : GetSuggestedWorkspaceName fuel cand taken = some cand := by
  unfold GetSuggestedWorkspaceName
  simp [(Contains_eq_false_iff taken _).2 hc]

/-! Section: Lemmas on `url.QueryUnescape` -/

theorem unhex_lt (c : Nat) : unhex c < 16 := by
  unfold unhex
  split
  · omega
  · split
    · omega
    · split <;> omega

theorem hexValue_eq_unhex (c : Nat) : hexValue c = unhex c := by
  unfold hexValue unhex
  split
  · rfl
  · split
    · omega
    · split
      · omega
      · rfl

theorem nibbles_eq : ∀ x < 16, ∀ y < 16, (x <<< 4 ||| y) % 256 = 16 * x + y := by
  decide

theorem ishex_ne_percent (c : Nat) (h : ishex c = true) : c ≠ 37 := by
  intro hc
  subst hc
  simp [ishex] at h

theorem ishex_ne_plus (c : Nat) (h : ishex c = true) : c ≠ 43 := by
  intro hc
  subst hc
  simp [ishex] at h

theorem scanEscapes_ok_iff_aux (k : Nat) : ∀ (s : GoString), s.length ≤ k →
    ∀ n hasPlus, (∃ r, scanEscapes s n hasPlus = .ok r) ↔ hasMalformedEscape s = false := by
  induction k with
  | zero =>
    intro s hs n hasPlus
    have : s = [] := List.eq_nil_of_length_eq_zero (by omega)
    subst this
    simp [scanEscapes, hasMalformedEscape]
  | succ k ih =>
    intro s hs n hasPlus
    match s, hs with
    | [], _ => simp [scanEscapes, hasMalformedEscape]
    | c :: rest, hlen =>
      unfold scanEscapes
      by_cases hc : c = 37
      · subst hc
        match rest, hlen with
        | [], _ => simp [hasMalformedEscape, startsWithTwoHex]
        | [a], _ => simp [hasMalformedEscape, startsWithTwoHex]
        | a :: b :: rest2, hlen =>
          by_cases hh : (ishex a && ishex b) = true
          · have ha : a ≠ 37 := ishex_ne_percent a (by simp at hh; exact hh.1)
            have hb : b ≠ 37 := ishex_ne_percent b (by simp at hh; exact hh.2)
            simp only [hh, if_true, if_pos]
            rw [ih rest2 (by simp at hlen; omega) (n + 1) hasPlus]
            simp [hasMalformedEscape, startsWithTwoHex, hh, ha, hb]
          · simp [hasMalformedEscape, startsWithTwoHex, hh]
      · simp only [hc, if_false]
        have hrest : ∀ n hasPlus, (∃ r, scanEscapes rest n hasPlus = .ok r) ↔
            hasMalformedEscape rest = false :=
          ih rest (by simp at hlen; omega)
        by_cases hp : c = 43
        · simp [hp, hrest, hasMalformedEscape]
        · simp [hp, hc, hrest, hasMalformedEscape]

theorem scanEscapes_ok_iff (s : GoString) (n : Nat) (hasPlus : Bool) :
    (∃ r, scanEscapes s n hasPlus = .ok r) ↔ hasMalformedEscape s = false :=
  scanEscapes_ok_iff_aux s.length s (le_refl _) n hasPlus

theorem hasMalformedEscape_iff (s : GoString) :
    hasMalformedEscape s = true ↔
      ∃ pre rest, s = pre ++ 37 :: rest ∧ startsWithTwoHex rest = false := by
  induction s with
  | nil => simp [hasMalformedEscape]
  | cons c t ih =>
    simp only [hasMalformedEscape, Bool.or_eq_true, Bool.and_eq_true, decide_eq_true_eq,
      Bool.not_eq_true', ih]
    constructor
    · rintro (⟨rfl, h⟩ | ⟨pre, rest, rfl, h⟩)
      · exact ⟨[], t, rfl, h⟩
      · exact ⟨c :: pre, rest, rfl, h⟩
    · rintro ⟨pre, rest, heq, h⟩
      cases pre with
      | nil =>
        simp only [List.nil_append, List.cons.injEq] at heq
        obtain ⟨rfl, rfl⟩ := heq
        exact Or.inl ⟨rfl, h⟩
      | cons p pre =>
        simp only [List.cons_append, List.cons.injEq] at heq
        obtain ⟨rfl, rfl⟩ := heq
        exact Or.inr ⟨pre, rest, rfl, h⟩

/-- A successful scan: the second pass computes the specification's decoding, and the
counters tell whether the string holds a `%` or a `+`. -/
theorem scanEscapes_ok_spec_aux (k : Nat) : ∀ (s : GoString), s.length ≤ k →
    ∀ n hasPlus r, scanEscapes s n hasPlus = .ok r →
      queryDecode s = some (unescapeBuild s) ∧ n ≤ r.1 ∧ (r.1 = n → 37 ∉ s) ∧
      (r.2 = false → 43 ∉ s) ∧ (r.2 = false → hasPlus = false) := by
  induction k with
  | zero =>
    intro s hs n hasPlus r h
    have : s = [] := List.eq_nil_of_length_eq_zero (by omega)
    subst this
    simp only [scanEscapes, Except.ok.injEq] at h
    subst h
    simp [queryDecode, unescapeBuild]
  | succ k ih =>
    intro s hs n hasPlus r h
    match s, hs with
    | [], _ =>
      simp only [scanEscapes, Except.ok.injEq] at h
      subst h
      simp [queryDecode, unescapeBuild]
    | c :: rest, hlen =>
      unfold scanEscapes at h
      by_cases hc : c = 37
      · subst hc
        match rest, hlen with
        | [], _ => simp at h
        | [a], _ => simp at h
        | a :: b :: rest2, hlen =>
          by_cases hh : (ishex a && ishex b) = true
          · simp only [hh, if_true, if_pos] at h
            obtain ⟨h1, h2, h3, h4, h5⟩ := ih rest2 (by simp at hlen; omega) (n + 1) hasPlus r h
            refine ⟨?_, by omega, by omega, ?_, h5⟩
            · unfold queryDecode unescapeBuild
              simp only [hh, if_true, h1, Option.map_some']
              rw [hexValue_eq_unhex a, hexValue_eq_unhex b,
                nibbles_eq _ (unhex_lt a) _ (unhex_lt b)]
            · intro hr
              have ha : a ≠ 43 := ishex_ne_plus a (by simp at hh; exact hh.1)
              have hb : b ≠ 43 := ishex_ne_plus b (by simp at hh; exact hh.2)
              have := h4 hr
              simp [ha.symm, hb.symm, this]
          · simp [hh] at h
      · simp only [hc, if_false] at h
        by_cases hp : c = 43
        · subst hp
          simp only [if_true] at h
          obtain ⟨h1, h2, h3, h4, h5⟩ := ih rest (by simp at hlen; omega) n true r h
          refine ⟨?_, h2, ?_, ?_, ?_⟩
          · unfold queryDecode unescapeBuild
            simp [h1]
          · intro hr; simpa using h3 hr
          · intro hr; simp at h5; exact absurd hr (by simpa using h5)
          · intro hr; exact absurd (h5 hr) (by simp)
        · simp only [hp, if_false] at h
          obtain ⟨h1, h2, h3, h4, h5⟩ := ih rest (by simp at hlen; omega) n hasPlus r h
          refine ⟨?_, h2, ?_, ?_, h5⟩
          · unfold queryDecode unescapeBuild
            simp [h1, hc, hp]
          · intro hr; have := h3 hr; simp [this, Ne.symm hc]
          · intro hr; have := h4 hr; simp [this, Ne.symm hp]

theorem unescapeBuild_plain (s : GoString) (h1 : 37 ∉ s) :
    unescapeBuild s = s.map (fun b => if b = 43 then 32 else b) := by
  induction s with
  | nil => simp [unescapeBuild]
  | cons c t ih =>
    have hc : c ≠ 37 := fun h => h1 (by simp [h])
    have ht : 37 ∉ t := fun h => h1 (by simp [h])
    unfold unescapeBuild
    by_cases hp : c = 43
    · simp [hp, ih ht]
    · simp [hc, hp, ih ht]

theorem hasMalformedEscape_plain (s : GoString) (h1 : 37 ∉ s) : hasMalformedEscape s = false := by
  induction s with
  | nil => simp [hasMalformedEscape]
  | cons c t ih =>
    have hc : c ≠ 37 := fun h => h1 (by simp [h])
    have ht : 37 ∉ t := fun h => h1 (by simp [h])
    simp [hasMalformedEscape, hc, ih ht]

/-- Without `+` the query decoding is the percent-decoding of the specification. -/
theorem percentDecode_eq_queryDecode_aux (k : Nat) : ∀ (s : GoString), s.length ≤ k →
    43 ∉ s → percentDecode_spec s = queryDecode s := by
  induction k with
  | zero =>
    intro s hs _
    have : s = [] := List.eq_nil_of_length_eq_zero (by omega)
    subst this
    rfl
  | succ k ih =>
    intro s hs hplus
    match s, hs with
    | [], _ => rfl
    | c :: rest, hlen =>
      have hc : c ≠ 43 := fun h => hplus (by simp [h])
      have hrest : 43 ∉ rest := fun h => hplus (by simp [h])
      unfold percentDecode_spec queryDecode
      by_cases h37 : c = 37
      · subst h37
        match rest, hlen, hrest with
        | [], _, _ => rfl
        | [a], _, _ => rfl
        | a :: b :: rest2, hlen, hrest =>
          have hrest2 : 43 ∉ rest2 := fun h => hrest (by simp [h])
          simp only [if_true]
          rw [ih rest2 (by simp at hlen; omega) hrest2]
      · simp only [h37, hc, if_false]
        rw [ih rest (by simp at hlen; omega) hrest]

theorem percentDecode_eq_queryDecode (s : GoString) (h : 43 ∉ s) :
    percentDecode_spec s = queryDecode s :=
  percentDecode_eq_queryDecode_aux s.length s (le_refl _) h

/-- The result of `url.QueryUnescape` in terms of the one-pass query decoding. -/
theorem QueryUnescape_eq (s : GoString) :
    (hasMalformedEscape s = true → ∃ e, QueryUnescape s = ([], some e)) ∧
    (hasMalformedEscape s = false →
      ∃ d, queryDecode s = some d ∧ QueryUnescape s = (d, none) ∧
        (37 ∉ s → d = s.map (fun b => if b = 43 then 32 else b))) := by
  constructor
  · intro h
    unfold QueryUnescape
    cases hscan : scanEscapes s 0 false with
    | error e => exact ⟨e, rfl⟩
    | ok r =>
      have := (scanEscapes_ok_iff s 0 false).1 ⟨r, hscan⟩
      rw [h] at this
      exact absurd this (by simp)
  · intro h
    obtain ⟨r, hscan⟩ := (scanEscapes_ok_iff s 0 false).2 h
    obtain ⟨h1, _, h3, h4, _⟩ := scanEscapes_ok_spec_aux s.length s (le_refl _) 0 false r hscan
    unfold QueryUnescape
    rw [hscan]
    obtain ⟨n, hasPlus⟩ := r
    by_cases hfast : (n = 0 && !hasPlus) = true
    · simp only [Bool.and_eq_true, decide_eq_true_eq, Bool.not_eq_true'] at hfast
      have hno37 : 37 ∉ s := h3 hfast.1
      have hno43 : 43 ∉ s := h4 hfast.2
      have hid : s.map (fun b => if b = 43 then 32 else b) = s := by
        have hmap : ∀ t : GoString, 43 ∉ t → t.map (fun b => if b = 43 then 32 else b) = t := by
          intro t ht
          induction t with
          | nil => rfl
          | cons b t iht =>
            have hb : b ≠ 43 := fun hb2 => ht (by simp [hb2])
            have ht2 : 43 ∉ t := fun h => ht (by simp [h])
            simp [hb, iht ht2]
        exact hmap s hno43
      have hb : unescapeBuild s = s := by rw [unescapeBuild_plain s hno37, hid]
      refine ⟨s, by rw [h1, hb], by simp [hfast.1, hfast.2], fun _ => hid.symm⟩
    · refine ⟨unescapeBuild s, h1, by simp only [hfast]; simp, fun h37 => unescapeBuild_plain s h37⟩

/-! Section: Lemmas on runes, `strings.ToLower` and `strings.TrimSuffix` -/

theorem firstByte_some (b sz lo hi : Nat) (h : firstByte b = some (sz, lo, hi)) :
    0x80 ≤ lo ∧ (sz = 2 ∨ sz = 3 ∨ sz = 4) := by
  unfold firstByte at h
  repeat' split at h
  all_goals simp at h
  all_goals omega

theorem isCont_ge (b : Nat) (h : isCont b = true) : 0x80 ≤ b := by
  simp [isCont] at h
  omega

theorem DecodeRuneInString_width (s : GoString) (hs : s ≠ []) :
    1 ≤ (DecodeRuneInString s).2 ∧ (DecodeRuneInString s).2 ≤ s.length := by
  unfold DecodeRuneInString
  repeat' split
  all_goals simp_all

/-- Bytes appended after a non-empty string do not change its first rune, as long as
the appended bytes start with an ASCII byte. -/
theorem DecodeRuneInString_append (p t : GoString) (hp : p ≠ [])
    (ht : ∀ b ∈ t.head?, b < 0x80) :
    DecodeRuneInString (p ++ t) = DecodeRuneInString p := by
  match p, hp with
  | s0 :: p1, _ =>
    unfold DecodeRuneInString
    simp only [List.cons_append]
    by_cases h0 : s0 < 0x80
    · simp [h0]
    · simp only [h0, if_false]
      cases hfb : firstByte s0 with
      | none => rfl
      | some x =>
        obtain ⟨sz, lo, hi⟩ := x
        obtain ⟨hlo, hsz⟩ := firstByte_some s0 sz lo hi hfb
        have hc : ∀ b, b < 0x80 → isCont b = false := by
          intro b hb
          cases h : isCont b with
          | false => rfl
          | true => have := isCont_ge b h; omega
        rcases p1 with _ | ⟨s1, _ | ⟨s2, _ | ⟨s3, p4⟩⟩⟩ <;>
          rcases t with _ | ⟨t0, _ | ⟨t1, _ | ⟨t2, t3⟩⟩⟩ <;>
          simp at ht <;>
          rcases hsz with h | h | h <;> subst h <;>
          simp <;> 
          (try (intro h1; omega)) <;>
          (try simp [hc _ ht])

theorem runesAux_fuel (k : Nat) : ∀ (fuel : Nat) (s : GoString), fuel ≤ k → s.length ≤ fuel →
    runesAux fuel s = runesAux s.length s := by
  induction k with
  | zero =>
    intro fuel s hf hs
    have h0 : fuel = 0 := by omega
    have hl : s.length = 0 := by omega
    rw [h0, hl]
  | succ k ih =>
    intro fuel s hf hs
    match s, hs with
    | [], _ => cases fuel <;> simp [runesAux]
    | c :: t, hs =>
      obtain ⟨f, rfl⟩ : ∃ f, fuel = f + 1 := ⟨fuel - 1, by simp at hs; omega⟩
      have hw := DecodeRuneInString_width (c :: t) (by simp)
      have hd : ((c :: t).drop (DecodeRuneInString (c :: t)).2).length ≤ t.length := by
        simp only [List.length_drop, List.length_cons]
        omega
      simp only [List.length_cons, runesAux]
      rw [ih f _ (by omega) (by simp at hs; omega), ih t.length _ (by simp at hs; omega) hd]

theorem runes_cons (c : Nat) (t : GoString) :
    runes (c :: t) = (DecodeRuneInString (c :: t)).1 ::
      runes ((c :: t).drop (DecodeRuneInString (c :: t)).2) := by
  have hw := DecodeRuneInString_width (c :: t) (by simp)
  have hd : ((c :: t).drop (DecodeRuneInString (c :: t)).2).length ≤ t.length := by
    simp only [List.length_drop, List.length_cons]
    omega
  unfold runes
  simp only [List.length_cons, runesAux]
  rw [runesAux_fuel t.length t.length _ (le_refl _) hd]

theorem runes_nil : runes [] = [] := rfl

theorem runes_append_aux (t : GoString) (ht : ∀ b ∈ t.head?, b < 0x80) (k : Nat) :
    ∀ p : GoString, p.length ≤ k → runes (p ++ t) = runes p ++ runes t := by
  induction k with
  | zero =>
    intro p hp
    have : p = [] := List.eq_nil_of_length_eq_zero (by omega)
    subst this
    simp [runes_nil]
  | succ k ih =>
    intro p hp
    match p, hp with
    | [], _ => simp [runes_nil]
    | c :: p1, hp =>
      have hw := DecodeRuneInString_width (c :: p1) (by simp)
      have happ := DecodeRuneInString_append (c :: p1) t (by simp) ht
      have hcons : (c :: p1) ++ t = c :: (p1 ++ t) := rfl
      rw [hcons, runes_cons c (p1 ++ t), ← hcons, happ, runes_cons c p1,
        List.drop_append_of_le_length hw.2, ih _ (by
          simp only [List.length_drop, List.length_cons] at hw ⊢
          simp at hp
          omega)]
      rfl

theorem runes_append (p t : GoString) (ht : ∀ b ∈ t.head?, b < 0x80) :
    runes (p ++ t) = runes p ++ runes t :=
  runes_append_aux t ht p.length p (le_refl _)

/-- The runes of an ASCII string are its bytes. -/
theorem runes_ascii (s : GoString) (h : ∀ b ∈ s, b < 0x80) : runes s = s := by
  induction s with
  | nil => rfl
  | cons c t ih =>
    have hc : c < 0x80 := h c (by simp)
    have hd : DecodeRuneInString (c :: t) = (c, 1) := by
      simp [DecodeRuneInString, hc]
    rw [runes_cons, hd]
    simp only [List.drop_succ_cons, List.drop_zero]
    rw [ih (fun b hb => h b (by simp [hb]))]

theorem ToLower_append_git (caseTable : Nat → Nat) (p : GoString) :
    ToLower caseTable (p ++ str ".git") = ToLower caseTable p ++ str ".git" := by
  have hgit : ∀ b ∈ str ".git", b < 0x80 := by decide
  unfold ToLower
  by_cases hp : p.all (fun c => decide (c < 0x80)) = true
  · have hall : (p ++ str ".git").all (fun c => decide (c < 0x80)) = true := by
      rw [List.all_append, hp]
      decide
    rw [if_pos hp, if_pos hall, List.map_append]
    rfl
  · have hall : ¬ (p ++ str ".git").all (fun c => decide (c < 0x80)) = true := by
      rw [List.all_append]
      simp only [Bool.and_eq_true, not_and]
      intro h
      exact absurd h hp
    rw [if_neg hp, if_neg hall]
    unfold Map
    rw [runes_append p (str ".git") (by decide), List.flatMap_append, runes_ascii _ hgit]
    rfl

theorem HasSuffix_iff (s suffix : GoString) :
    HasSuffix s suffix = true ↔ ∃ p, s = p ++ suffix := by
  unfold HasSuffix
  rw [List.isSuffixOf_iff_suffix]
  constructor
  · rintro ⟨p, hp⟩
    exact ⟨p, hp.symm⟩
  · rintro ⟨p, hp⟩
    exact ⟨p, hp.symm⟩

theorem TrimSuffix_append (p suffix : GoString) : TrimSuffix (p ++ suffix) suffix = p := by
  unfold TrimSuffix
  rw [if_pos ((HasSuffix_iff _ _).2 ⟨p, rfl⟩)]
  simp

theorem TrimSuffix_of_not (s suffix : GoString) (h : HasSuffix s suffix = false) :
    TrimSuffix s suffix = s := by
  unfold TrimSuffix
  simp [h]

/-! Section: Lemmas on the steps of `GetCreationDataFromPrompt` -/

theorem Clean_nil : Clean [] := by
  intro ev h
  cases h

theorem Clean_append (a b : List Event) : Clean (a ++ b) ↔ Clean a ∧ Clean b := by
  unfold Clean
  simp only [List.mem_append]
  constructor
  · intro h
    exact ⟨fun ev he => h ev (Or.inl he), fun ev he => h ev (Or.inr he)⟩
  · rintro ⟨h1, h2⟩ ev (he | he)
    · exact h1 ev he
    · exact h2 ev he

theorem Clean_single (ev : Event) (h : ev.err = none) : Clean [ev] := by
  intro x hx
  simp only [List.mem_singleton] at hx
  rw [hx]
  exact h

theorem FailsWith_single (ev : Event) (e : Error) (h : ev.err = some e) : FailsWith [ev] e :=
  ⟨[], ev, rfl, Clean_nil, h⟩

theorem FailsWith_append (a b : List Event) (e : Error) (ha : Clean a) (hb : FailsWith b e) :
    FailsWith (a ++ b) e := by
  obtain ⟨pre, ev, rfl, hpre, hev⟩ := hb
  exact ⟨a ++ pre, ev, by simp, (Clean_append a pre).2 ⟨ha, hpre⟩, hev⟩

theorem FailsWith_not_clean (a : List Event) (e : Error) (h : FailsWith a e) : ¬ Clean a := by
  obtain ⟨pre, ev, rfl, _, hev⟩ := h
  intro hc
  have := hc ev (by simp)
  rw [hev] at this
  cases this

/-- In a failing list of steps the only step with an error is the last one. -/
theorem FailsWith_unique (a : List Event) (e : Error) (h : FailsWith a e) (ev : Event)
    (hev : ev ∈ a) (e2 : Error) (he2 : ev.err = some e2) :
    e2 = e ∧ ∃ pre, a = pre ++ [ev] ∧ Clean pre := by
  obtain ⟨pre, last, rfl, hpre, hlast⟩ := h
  rcases List.mem_append.1 hev with hin | hin
  · have := hpre ev hin
    rw [he2] at this
    cases this
  · simp only [List.mem_singleton] at hin
    subst hin
    rw [hlast] at he2
    cases he2
    exact ⟨rfl, pre, rfl, hpre⟩

/-- What one acquisition of an additional repository adds to the steps. -/
theorem acquireAdditional_spec {W : Type} (c : Collaborators W)
    (config : CreateDataPromptConfig) (i : Nat) (s : Session W) :
    ∃ added, (acquireAdditional c config i s).2.log = s.log ++ added ∧
      added.filterMap Event.submitted = [] ∧
      match (acquireAdditional c config i s).1 with
      | .error e => FailsWith added e
      | .ok (r, more) =>
        Clean added ∧ added.filterMap Event.decision = [(i, more)] ∧
          added.filterMap Event.repo = [r] := by
  unfold acquireAdditional callWizard
  by_cases hw : wizardEnabled config = true
  · simp only [hw, if_true]
    rcases hwz : c.getRepositoryFromWizard config.UserGitProviders i s.sel s.world with
      ⟨r, sel, w⟩
    rcases r with e | (_ | repo)
    · exact ⟨[Event.wizard i (.error e)], rfl, rfl, FailsWith_single _ e rfl⟩
    · simp only [callAdditionalForm]
      rcases hf : c.RunAdditionalProjectRepoForm i config.ApiClient sel.selectedRepos w with
        ⟨r2, m, w2⟩
      rcases r2 with e | ⟨repo, more⟩
      · refine ⟨[Event.wizard i (.ok none), Event.additionalForm i (.error e)], by simp, rfl, ?_⟩
        exact ⟨[Event.wizard i (.ok none)], _, rfl, Clean_single _ rfl, rfl⟩
      · refine ⟨[Event.wizard i (.ok none), Event.additionalForm i (.ok (repo, more))],
          by simp, rfl, ?_, rfl, rfl⟩
        exact (Clean_append [_] [_]).2 ⟨Clean_single _ rfl, Clean_single _ rfl⟩
    · simp only [callAddMoreForm]
      rcases hf : c.RunAddMoreProjectsForm w with ⟨r2, w2⟩
      rcases r2 with e | more
      · refine ⟨[Event.wizard i (.ok (some repo)), Event.addMoreForm i (.error e)], by simp,
          rfl, ?_⟩
        exact ⟨[Event.wizard i (.ok (some repo))], _, rfl, Clean_single _ rfl, rfl⟩
      · refine ⟨[Event.wizard i (.ok (some repo)), Event.addMoreForm i (.ok more)],
          by simp, rfl, ?_, rfl, rfl⟩
        exact (Clean_append [_] [_]).2 ⟨Clean_single _ rfl, Clean_single _ rfl⟩
  · have hw2 : wizardEnabled config = false := by simpa using hw
    simp only [hw2, Bool.false_eq_true, if_false, callAdditionalForm]
    rcases hf : c.RunAdditionalProjectRepoForm i config.ApiClient s.sel.selectedRepos s.world
      with ⟨r2, m, w2⟩
    rcases r2 with e | ⟨repo, more⟩
    · exact ⟨[Event.additionalForm i (.error e)], rfl, rfl, FailsWith_single _ e rfl⟩
    · exact ⟨[Event.additionalForm i (.ok (repo, more))], rfl, rfl, Clean_single _ rfl, rfl, rfl⟩

/-- What the acquisition of the first repository adds to the steps. -/
theorem acquireFirst_spec {W : Type} (c : Collaborators W) (config : CreateDataPromptConfig)
    (s : Session W) :
    ∃ added, (acquireFirst c config s).2.log = s.log ++ added ∧
      added.filterMap Event.submitted = [] ∧ added.filterMap Event.decision = [] ∧
      match (acquireFirst c config s).1 with
      | .error e => FailsWith added e
      | .ok r => Clean added ∧ added.filterMap Event.repo = [r] := by
  unfold acquireFirst callWizard
  by_cases hw : wizardEnabled config = true
  · simp only [hw, if_true]
    rcases hwz : c.getRepositoryFromWizard config.UserGitProviders 0 s.sel s.world with
      ⟨r, sel, w⟩
    rcases r with e | (_ | repo)
    · exact ⟨[Event.wizard 0 (.error e)], rfl, rfl, rfl, FailsWith_single _ e rfl⟩
    · simp only [callUrlInput]
      rcases hf : c.GetRepositoryFromUrlInput config.MultiProject config.ApiClient
        sel.selectedRepos w with ⟨r2, m, w2⟩
      rcases r2 with e | repo
      · refine ⟨[Event.wizard 0 (.ok none), Event.urlInput (.error e)], by simp, rfl, rfl, ?_⟩
        exact ⟨[Event.wizard 0 (.ok none)], _, rfl, Clean_single _ rfl, rfl⟩
      · refine ⟨[Event.wizard 0 (.ok none), Event.urlInput (.ok repo)], by simp, rfl, rfl,
          ?_, rfl⟩
        exact (Clean_append [_] [_]).2 ⟨Clean_single _ rfl, Clean_single _ rfl⟩
    · exact ⟨[Event.wizard 0 (.ok (some repo))], rfl, rfl, rfl, Clean_single _ rfl, rfl⟩
  · have hw2 : wizardEnabled config = false := by simpa using hw
    simp only [hw2, Bool.false_eq_true, if_false, callUrlInput]
    rcases hf : c.GetRepositoryFromUrlInput config.MultiProject config.ApiClient
      s.sel.selectedRepos s.world with ⟨r2, m, w2⟩
    rcases r2 with e | repo
    · exact ⟨[Event.urlInput (.error e)], rfl, rfl, rfl, FailsWith_single _ e rfl⟩
    · exact ⟨[Event.urlInput (.ok repo)], rfl, rfl, rfl, Clean_single _ rfl, rfl⟩

theorem range_succ_shift (k i : Nat) (more : Bool) (hk : 1 ≤ k) (hmore : more = true) :
    (i, more) :: (List.range k).map (fun j => (i + 1 + j, decide (j + 1 < k)))
      = (List.range (k + 1)).map (fun j => (i + j, decide (j + 1 < k + 1))) := by
  rw [List.range_succ_eq_map, List.map_cons, List.map_map]
  subst hmore
  congr 1
  · simp
    omega
  · apply List.map_congr_left
    intro j _
    simp only [Function.comp, Nat.succ_eq_add_one, Prod.mk.injEq, Nat.add_lt_add_iff_right,
      and_true]
    omega

theorem range_succ_true (k i : Nat) :
    (i, true) :: (List.range k).map (fun j => (i + 1 + j, true))
      = (List.range (k + 1)).map (fun j => (i + j, true)) := by
  rw [List.range_succ_eq_map, List.map_cons, List.map_map]
  congr 1
  apply List.map_congr_left
  intro j _
  simp only [Function.comp, Nat.succ_eq_add_one, Prod.mk.injEq, and_true]
  omega

theorem newCreateProjectRequest_none (config : CreateDataPromptConfig)
    (repo : GitRepository) (name : GoString)
    (h : newCreateProjectRequest config repo name = none) : config.Defaults = none := by
  unfold newCreateProjectRequest at h
  cases hd : config.Defaults with
  | none => rfl
  | some d => rw [hd] at h; cases h

theorem newCreateProjectRequest_some (config : CreateDataPromptConfig)
    (repo : GitRepository) (name : GoString) (p : CreateWorkspaceRequestProject)
    (h : newCreateProjectRequest config repo name = some p) :
    p.Source = repo ∧ p.Name = name ∧ ∃ d, config.Defaults = some d := by
  unfold newCreateProjectRequest at h
  cases hd : config.Defaults with
  | none => rw [hd] at h; cases h
  | some d =>
    rw [hd] at h
    simp only [Option.some.injEq] at h
    subst h
    exact ⟨rfl, rfl, d, rfl⟩

/-- What the additional-project loop adds to the steps, by the way it ends. -/
theorem additionalProjects_spec {W : Type} (c : Collaborators W)
    (config : CreateDataPromptConfig) :
    ∀ (fuel i : Nat) (pl : List CreateWorkspaceRequestProject) (s : Session W),
    ∃ added, (additionalProjects c config fuel i pl s).2.log = s.log ++ added ∧
      added.filterMap Event.submitted = [] ∧
      match (additionalProjects c config fuel i pl s).1 with
      | .failed e => FailsWith added e
      | .nilPanic => Clean added ∧ config.Defaults = none
      | .outOfFuel => Clean added ∧
          added.filterMap Event.decision = (List.range fuel).map (fun j => (i + j, true))
      | .done pl2 => Clean added ∧ ∃ k new, 1 ≤ k ∧ k ≤ fuel ∧
          added.filterMap Event.decision
            = (List.range k).map (fun j => (i + j, decide (j + 1 < k))) ∧
          pl2 = pl ++ new ∧ new.length = k ∧
          new.map (fun p => p.Source) = added.filterMap Event.repo := by
  intro fuel
  induction fuel with
  | zero =>
    intro i pl s
    exact ⟨[], by simp [additionalProjects], rfl, Clean_nil, rfl⟩
  | succ fuel ih =>
    intro i pl s
    obtain ⟨a1, hlog1, hsub1, hm1⟩ := acquireAdditional_spec c config i s
    unfold additionalProjects
    rcases hacq : acquireAdditional c config i s with ⟨r, s1⟩
    rw [hacq] at hlog1 hm1
    simp only at hlog1 hm1
    rcases r with e | ⟨repo, more⟩
    · exact ⟨a1, hlog1, hsub1, hm1⟩
    · simp only at hm1
      obtain ⟨hc1, hd1, hr1⟩ := hm1
      simp only [callSanitize, Session.push]
      rcases hsan : GetSanitizedProjectName repo.Name with ⟨name, _ | err⟩
      · simp only
        have hcs : Clean (a1 ++ [Event.sanitize repo.Name (name, none)]) :=
          (Clean_append _ _).2 ⟨hc1, Clean_single _ rfl⟩
        cases hnew : newCreateProjectRequest config repo name with
        | none =>
          simp only
          exact ⟨a1 ++ [Event.sanitize repo.Name (name, none)], by simp [hlog1],
            by simp [hsub1, Event.submitted], hcs, newCreateProjectRequest_none _ _ _ hnew⟩
        | some project =>
          simp only
          have hsrc0 : project.Source = repo := (newCreateProjectRequest_some _ _ _ _ hnew).1
          cases more with
          | false =>
            simp only [Bool.false_eq_true, if_false]
            refine ⟨a1 ++ [Event.sanitize repo.Name (name, none)], by simp [hlog1],
              by simp [hsub1, Event.submitted], hcs, 1, [project], le_refl _, by omega, ?_,
              rfl, rfl, ?_⟩
            · simp [hd1, Event.decision, List.range_succ]
            · simp [hr1, Event.repo, hsrc0]
          | true =>
            simp only [if_true]
            obtain ⟨a2, hlog2, hsub2, hm2⟩ := ih (i + 1) (pl ++ [project])
              { s1 with log := s1.log ++ [Event.sanitize repo.Name (name, none)] }
            refine ⟨a1 ++ [Event.sanitize repo.Name (name, none)] ++ a2,
              by rw [hlog2]; simp [hlog1], by simp [hsub1, hsub2, Event.submitted], ?_⟩
            rcases hloop : (additionalProjects c config fuel (i + 1) (pl ++ [project])
              { s1 with log := s1.log ++ [Event.sanitize repo.Name (name, none)] }).1 with
              pl2 | e | _ | _
            · rw [hloop] at hm2
              simp only at hm2 ⊢
              obtain ⟨hc2, k, new, hk1, hk2, hd2, hpl, hlen, hsrc⟩ := hm2
              refine ⟨(Clean_append _ _).2 ⟨hcs, hc2⟩, k + 1, project :: new, by omega,
                by omega, ?_, ?_, ?_, ?_⟩
              · simp only [List.filterMap_append, hd1, hd2, List.filterMap_cons,
                  Event.decision, List.filterMap_nil, List.append_nil, List.singleton_append]
                exact range_succ_shift k i true hk1 rfl
              · simp [hpl]
              · simp [hlen]
              · simp [hr1, hsrc, Event.repo, hsrc0]
            · rw [hloop] at hm2
              simp only at hm2 ⊢
              have := FailsWith_append _ _ e hcs hm2
              simpa using this
            · rw [hloop] at hm2
              simp only at hm2 ⊢
              obtain ⟨hc2, hd2⟩ := hm2
              refine ⟨(Clean_append _ _).2 ⟨hcs, hc2⟩, ?_⟩
              simp only [List.filterMap_append, hd1, hd2, List.filterMap_cons, Event.decision,
                List.filterMap_nil, List.append_nil, List.singleton_append]
              exact range_succ_true fuel i
            · rw [hloop] at hm2
              simp only at hm2 ⊢
              exact ⟨(Clean_append _ _).2 ⟨hcs, hm2.1⟩, hm2.2⟩
      · simp only
        refine ⟨a1 ++ [Event.sanitize repo.Name (name, some err)], by simp [hlog1],
          by simp [hsub1, Event.submitted], ?_⟩
        exact FailsWith_append _ _ err hc1 (FailsWith_single _ err rfl)

theorem suggested_none_fuel (fuel : Nat) (cand : GoString) (taken : List GoString)
    (h : GetSuggestedWorkspaceName fuel cand taken = none) : fuel < taken.length := by
  by_contra hlt
  by_cases hc : cand ∈ taken
  · obtain ⟨m, _, _, _, _, h5⟩ := suggested_of_taken fuel cand taken (by omega) hc
    rw [h] at h5
    cases h5
  · rw [suggested_of_free fuel cand taken hc] at h
    cases h

/-- What the last lines (suggested name, submission form) do on a non-empty list. -/
theorem submit_spec {W : Type} (fuel : Nat) (c : Collaborators W)
    (config : CreateDataPromptConfig) (first : CreateWorkspaceRequestProject)
    (rest : List CreateWorkspaceRequestProject) (s : Session W) :
    ((submit fuel c config (first :: rest) s).1 = Outcome.outOfFuel ∧
      (submit fuel c config (first :: rest) s).2.log = s.log ∧
      fuel < config.ExistingWorkspaceNames.length) ∨
    (∃ sugg res, GetSuggestedWorkspaceName fuel first.Name config.ExistingWorkspaceNames
        = some sugg ∧
      (submit fuel c config (first :: rest) s).2.log
        = s.log ++ [Event.submission sugg (first :: rest) res] ∧
      (∀ e, res = some e →
        (submit fuel c config (first :: rest) s).1 = Outcome.returned [] [] (some e)) ∧
      (res = none → ∃ n ps,
        (submit fuel c config (first :: rest) s).1 = Outcome.returned n ps none)) := by
  unfold submit
  simp only
  cases hsug : GetSuggestedWorkspaceName fuel first.Name config.ExistingWorkspaceNames with
  | none => exact Or.inl ⟨rfl, rfl, suggested_none_fuel _ _ _ hsug⟩
  | some sugg =>
    right
    simp only
    rcases hform : c.RunSubmissionForm [] sugg config.ExistingWorkspaceNames (first :: rest)
      config.Defaults s.world with ⟨⟨n, ps, res⟩, w⟩
    cases res with
    | none =>
      exact ⟨sugg, none, rfl, rfl, fun e he => (by cases he), fun _ => ⟨n, ps, rfl⟩⟩
    | some e0 =>
      refine ⟨sugg, some e0, rfl, rfl, ?_, fun he => (by cases he)⟩
      intro e he
      cases he
      rfl

/-- The four ways a call of `GetCreationDataFromPrompt` can go: a step before the
submission form fails; a loop runs out of fuel; the nil `config.Defaults` is
dereferenced; or the submission form is reached. -/
theorem run_cases {W : Type} (fuel : Nat) (c : Collaborators W)
    (config : CreateDataPromptConfig) (w : W) :
    (∃ e, (GetCreationDataFromPrompt fuel c config w).1 = Outcome.returned [] [] (some e) ∧
      FailsWith (GetCreationDataFromPrompt fuel c config w).2.log e ∧
      (GetCreationDataFromPrompt fuel c config w).2.log.filterMap Event.submitted = [] ∧
      (config.MultiProject = false →
        (GetCreationDataFromPrompt fuel c config w).2.log.filterMap Event.decision = [])) ∨
    ((GetCreationDataFromPrompt fuel c config w).1 = Outcome.outOfFuel ∧
      Clean (GetCreationDataFromPrompt fuel c config w).2.log ∧
      (GetCreationDataFromPrompt fuel c config w).2.log.filterMap Event.submitted = [] ∧
      (config.MultiProject = false →
        (GetCreationDataFromPrompt fuel c config w).2.log.filterMap Event.decision = []) ∧
      ((config.MultiProject = true ∧
          ∀ d ∈ (GetCreationDataFromPrompt fuel c config w).2.log.filterMap Event.decision,
            d.2 = true) ∨
        fuel < config.ExistingWorkspaceNames.length)) ∨
    ((GetCreationDataFromPrompt fuel c config w).1 = Outcome.nilPanic ∧
      Clean (GetCreationDataFromPrompt fuel c config w).2.log ∧
      (GetCreationDataFromPrompt fuel c config w).2.log.filterMap Event.submitted = [] ∧
      (config.MultiProject = false →
        (GetCreationDataFromPrompt fuel c config w).2.log.filterMap Event.decision = []) ∧
      config.Defaults = none) ∨
    (∃ pre repo name sugg ps res k,
      (GetCreationDataFromPrompt fuel c config w).2.log
        = pre ++ [Event.submission sugg ps res] ∧
      Clean pre ∧ pre.filterMap Event.submitted = [] ∧
      (pre.filterMap Event.repo).head? = some repo ∧
      GetSanitizedProjectName repo.Name = (name, none) ∧
      GetSuggestedWorkspaceName fuel name config.ExistingWorkspaceNames = some sugg ∧
      ps.map (fun p => p.Source) = pre.filterMap Event.repo ∧
      ps.length = 1 + k ∧
      pre.filterMap Event.decision
        = (List.range k).map (fun j => (2 + j, decide (j + 1 < k))) ∧
      (config.MultiProject = true → 1 ≤ k ∧ k ≤ fuel) ∧
      (config.MultiProject = false → k = 0) ∧
      (∀ e, res = some e →
        (GetCreationDataFromPrompt fuel c config w).1 = Outcome.returned [] [] (some e)) ∧
      (res = none → ∃ n ps2,
        (GetCreationDataFromPrompt fuel c config w).1 = Outcome.returned n ps2 none)) := by
  unfold GetCreationDataFromPrompt
  simp only
  obtain ⟨a1, hlog1, hsub1, hdec1, hm1⟩ := acquireFirst_spec c config
    { world := w
      sel := { selectedRepos := [], disabledNamespaces := [], disabledGitProviders := [] }
      log := [] }
  rcases hacq : acquireFirst c config
    { world := w
      sel := { selectedRepos := [], disabledNamespaces := [], disabledGitProviders := [] }
      log := [] } with ⟨r, s1⟩
  rw [hacq] at hlog1 hm1
  simp only [List.nil_append] at hlog1 hm1
  rcases r with e | repo
  · left
    refine ⟨e, rfl, ?_, ?_, ?_⟩
    · simp only [hlog1]; exact hm1
    · simp only [hlog1]; exact hsub1
    · intro _; simp only [hlog1]; exact hdec1
  · simp only at hm1
    obtain ⟨hc1, hr1⟩ := hm1
    simp only [callSanitize, Session.push]
    rcases hsan : GetSanitizedProjectName repo.Name with ⟨name, _ | err⟩
    · simp only
      have hcs : Clean (a1 ++ [Event.sanitize repo.Name (name, none)]) :=
        (Clean_append _ _).2 ⟨hc1, Clean_single _ rfl⟩
      have hsubs : (a1 ++ [Event.sanitize repo.Name (name, none)]).filterMap Event.submitted
          = [] := by simp [hsub1, Event.submitted]
      have hdecs : (a1 ++ [Event.sanitize repo.Name (name, none)]).filterMap Event.decision
          = [] := by simp [hdec1, Event.decision]
      have hreps : (a1 ++ [Event.sanitize repo.Name (name, none)]).filterMap Event.repo
          = [repo] := by simp [hr1, Event.repo]
      cases hnew : newCreateProjectRequest config repo name with
      | none =>
        simp only
        right; right; left
        refine ⟨trivial, ?_, ?_, ?_, newCreateProjectRequest_none _ _ _ hnew⟩
        · simp only [hlog1]; exact hcs
        · simp only [hlog1]; exact hsubs
        · intro _; simp only [hlog1]; exact hdecs
      | some project =>
        simp only
        obtain ⟨hsrc0, hname0, _⟩ := newCreateProjectRequest_some _ _ _ _ hnew
        cases hmulti : config.MultiProject with
        | false =>
          simp only [Bool.false_eq_true, if_false]
          rcases submit_spec fuel c config project []
            { s1 with log := s1.log ++ [Event.sanitize repo.Name (name, none)] } with
            ⟨h1, h2, h3⟩ | ⟨sugg, res, h1, h2, h3, h4⟩
          · right; left
            refine ⟨h1, ?_, ?_, ?_, Or.inr h3⟩
            · rw [h2]; simp only [hlog1]; exact hcs
            · rw [h2]; simp only [hlog1]; exact hsubs
            · intro _; rw [h2]; simp only [hlog1]; exact hdecs
          · right; right; right
            rw [hname0] at h1
            refine ⟨a1 ++ [Event.sanitize repo.Name (name, none)], repo, name, sugg,
              [project], res, 0,
              ?_, hcs, hsubs, by rw [hreps]; rfl, hsan, h1, ?_, rfl, ?_, ?_, fun _ => rfl,
              h3, h4⟩
            · rw [h2]; simp only [hlog1]
            · rw [hreps]; simp [hsrc0]
            · rw [hdecs]; rfl
            · intro h; cases h
        | true =>
          simp only [if_true]
          obtain ⟨a2, hlog2, hsub2, hm2⟩ := additionalProjects_spec c config fuel 2 [project]
            { s1 with log := s1.log ++ [Event.sanitize repo.Name (name, none)] }
          rcases hloop : additionalProjects c config fuel 2 [project]
            { s1 with log := s1.log ++ [Event.sanitize repo.Name (name, none)] } with ⟨ex, s3⟩
          rw [hloop] at hlog2 hm2
          simp only [hlog1] at hlog2 hm2
          rcases ex with pl2 | e | _ | _
          · simp only at hm2 ⊢
            obtain ⟨hc2, k, new, hk1, hk2, hd2, hpl, hlen, hsrc⟩ := hm2
            subst hpl
            have hcons : [project] ++ new = project :: new := rfl
            rw [hcons]
            rcases submit_spec fuel c config project new s3
              with ⟨h1, h2, h3⟩ | ⟨sugg, res, h1, h2, h3, h4⟩
            · right; left
              refine ⟨h1, ?_, ?_, fun h => (by cases h), Or.inr h3⟩
              · rw [h2, hlog2]; exact (Clean_append _ _).2 ⟨hcs, hc2⟩
              · rw [h2, hlog2, List.filterMap_append, hsubs, hsub2]; rfl
            · right; right; right
              rw [hname0] at h1
              refine ⟨a1 ++ [Event.sanitize repo.Name (name, none)] ++ a2, repo, name, sugg,
                project :: new, res, k,
                ?_, (Clean_append _ _).2 ⟨hcs, hc2⟩, ?_, ?_, hsan, h1, ?_, ?_, ?_,
                fun _ => ⟨hk1, hk2⟩, ?_, h3, h4⟩
              · rw [h2, hlog2]
              · rw [List.filterMap_append, hsubs, hsub2]; rfl
              · rw [List.filterMap_append, hreps]; rfl
              · rw [List.filterMap_append, hreps, ← hsrc]; simp [hsrc0]
              · simp only [List.length_cons, hlen]; omega
              · rw [List.filterMap_append, hdecs, hd2]; rfl
              · intro h; cases h
          · left
            simp only at hm2 ⊢
            refine ⟨e, rfl, ?_, ?_, fun h => (by cases h)⟩
            · rw [hlog2]; exact FailsWith_append _ _ e hcs hm2
            · rw [hlog2, List.filterMap_append, hsubs, hsub2]; rfl
          · right; left
            simp only at hm2
            refine ⟨rfl, ?_, ?_, fun h => (by cases h), Or.inl ⟨trivial, ?_⟩⟩
            · rw [hlog2]; exact (Clean_append _ _).2 ⟨hcs, hm2.1⟩
            · rw [hlog2, List.filterMap_append, hsubs, hsub2]; rfl
            · rw [hlog2, List.filterMap_append, hdecs, hm2.2]
              intro d hd
              simp only [List.nil_append, List.mem_map] at hd
              obtain ⟨j, _, rfl⟩ := hd
              rfl
          · right; right; left
            simp only at hm2
            refine ⟨rfl, ?_, ?_, fun h => (by cases h), hm2.2⟩
            · rw [hlog2]; exact (Clean_append _ _).2 ⟨hcs, hm2.1⟩
            · rw [hlog2, List.filterMap_append, hsubs, hsub2]; rfl
    · left
      simp only
      refine ⟨err, rfl, ?_, ?_, ?_⟩
      · simp only [hlog1]
        exact FailsWith_append _ _ err hc1 (FailsWith_single _ err rfl)
      · simp [hlog1, hsub1, Event.submitted]
      · intro _
        simp [hlog1, hdec1, Event.decision]

theorem submitted_mem (l : List Event) (sugg : GoString)
    (ps : List CreateWorkspaceRequestProject) (res : Option Error)
    (h : Event.submission sugg ps res ∈ l) : (sugg, ps, res) ∈ l.filterMap Event.submitted :=
  List.mem_filterMap.2 ⟨_, h, rfl⟩

/-- A submission step of a list whose earlier steps hold none is the last step. -/
theorem submission_last (pre : List Event) (sugg sugg0 : GoString)
    (ps ps0 : List CreateWorkspaceRequestProject) (res res0 : Option Error)
    (hpre : pre.filterMap Event.submitted = [])
    (h : Event.submission sugg ps res ∈ pre ++ [Event.submission sugg0 ps0 res0]) :
    sugg = sugg0 ∧ ps = ps0 ∧ res = res0 := by
  rcases List.mem_append.1 h with hin | hin
  · have := submitted_mem pre sugg ps res hin
    rw [hpre] at this
    cases this
  · simp only [List.mem_singleton, Event.submission.injEq] at hin
    exact hin

theorem submission_err (sugg : GoString) (ps : List CreateWorkspaceRequestProject)
    (res : Option Error) : (Event.submission sugg ps res).err = res := by
  cases res <;> rfl

/-! Section: Claims on the name helpers -/

/-- C1: given enough fuel for the search, `GetSuggestedWorkspaceName(candidate, taken)`
returns a name that is never in `taken`: `candidate` itself when it is not taken, and
otherwise `candidate` followed by the decimal digits of the smallest `i ≥ 2` for which
`candidate` followed by `i` is not taken. -/
theorem GetSuggestedWorkspaceName_unique (fuel : Nat) (candidate : GoString)
    (taken : List GoString) (hfuel : taken.length ≤ fuel) :
    ∃ r, GetSuggestedWorkspaceName fuel candidate taken = some r ∧ r ∉ taken ∧
      (candidate ∉ taken → r = candidate) ∧
      (candidate ∈ taken → ∃ i, 2 ≤ i ∧ r = candidate ++ itoa i ∧
        ∀ j, 2 ≤ j → j < i → candidate ++ itoa j ∈ taken) := by
  by_cases hc : candidate ∈ taken
  · obtain ⟨m, h1, _, h3, h4, h5⟩ := suggested_of_taken fuel candidate taken hfuel hc
    exact ⟨candidate ++ itoa m, h5, h3, fun h => absurd hc h, fun _ => ⟨m, h1, rfl, h4⟩⟩
  · exact ⟨candidate, suggested_of_free fuel candidate taken hc, hc, fun _ => rfl,
      fun h => absurd h hc⟩

/-- C1 at the specification's examples: `repo` with `repo`, `repo2` taken gives `repo3`,
and `demo` with only `demo2` taken stays `demo`. -/
theorem GetSuggestedWorkspaceName_unique_witness :
    GetSuggestedWorkspaceName 2 (str "repo") [str "repo", str "repo2"] = some (str "repo3") ∧
    GetSuggestedWorkspaceName 1 (str "demo") [str "demo2"] = some (str "demo") ∧
    ∃ r, GetSuggestedWorkspaceName 2 (str "repo") [str "repo", str "repo2"] = some r ∧
      r ∉ [str "repo", str "repo2"] ∧
      (str "repo" ∉ [str "repo", str "repo2"] → r = str "repo") ∧
      (str "repo" ∈ [str "repo", str "repo2"] → ∃ i, 2 ≤ i ∧ r = str "repo" ++ itoa i ∧
        ∀ j, 2 ≤ j → j < i → str "repo" ++ itoa j ∈ [str "repo", str "repo2"]) :=
  ⟨by decide, by decide,
    GetSuggestedWorkspaceName_unique 2 (str "repo") [str "repo", str "repo2"] (by decide)⟩

/-- C2: the suffix search terminates within `len(taken)` iterations: with that much fuel
or more the function returns, the result does not depend on the fuel, and for a taken
candidate the appended integer lies between 2 and `len(taken) + 1`. -/
theorem GetSuggestedWorkspaceName_terminates (fuel : Nat) (candidate : GoString)
    (taken : List GoString) (hfuel : taken.length ≤ fuel) :
    (∃ r, GetSuggestedWorkspaceName taken.length candidate taken = some r ∧
      GetSuggestedWorkspaceName fuel candidate taken = some r) ∧
    (candidate ∈ taken → ∃ i, 2 ≤ i ∧ i ≤ taken.length + 1 ∧
      GetSuggestedWorkspaceName fuel candidate taken = some (candidate ++ itoa i)) := by
  by_cases hc : candidate ∈ taken
  · obtain ⟨m, h1, h2, h3, h4, h5⟩ := suggested_of_taken fuel candidate taken hfuel hc
    refine ⟨⟨candidate ++ itoa m, ?_, h5⟩, fun _ => ⟨m, h1, h2, h5⟩⟩
    unfold GetSuggestedWorkspaceName
    simp only [(Contains_eq_true_iff taken _).2 hc, Bool.not_true, Bool.false_eq_true, if_false]
    exact suggestLoop_first_free candidate taken taken.length 2 m h1 (by omega) h3 h4
  · exact ⟨⟨candidate, suggested_of_free _ candidate taken hc,
      suggested_of_free fuel candidate taken hc⟩, fun h => absurd h hc⟩

/-- C2 at a list of three taken names: the search stops at suffix 4 = len(taken) + 1. -/
theorem GetSuggestedWorkspaceName_terminates_witness :
    GetSuggestedWorkspaceName 3 (str "a") [str "a", str "a2", str "a3"] = some (str "a4") ∧
    ((∃ r, GetSuggestedWorkspaceName [str "a", str "a2", str "a3"].length (str "a")
          [str "a", str "a2", str "a3"] = some r ∧
        GetSuggestedWorkspaceName 7 (str "a") [str "a", str "a2", str "a3"] = some r) ∧
      (str "a" ∈ [str "a", str "a2", str "a3"] → ∃ i, 2 ≤ i ∧
        i ≤ [str "a", str "a2", str "a3"].length + 1 ∧
        GetSuggestedWorkspaceName 7 (str "a") [str "a", str "a2", str "a3"]
          = some (str "a" ++ itoa i))) :=
  ⟨by decide,
    GetSuggestedWorkspaceName_terminates 7 (str "a") [str "a", str "a2", str "a3"] (by decide)⟩

/-- C3: `GetSanitizedProjectName(name)` returns an error exactly when `name` holds a `%`
that is not followed by two hexadecimal digits, and the string returned with an error is
empty. -/
theorem GetSanitizedProjectName_error_iff (name : GoString) :
    ((GetSanitizedProjectName name).2 ≠ none ↔
      ∃ pre rest, name = pre ++ 37 :: rest ∧ startsWithTwoHex rest = false) ∧
    ((GetSanitizedProjectName name).2 ≠ none → (GetSanitizedProjectName name).1 = []) := by
  rw [← hasMalformedEscape_iff]
  obtain ⟨hbad, hgood⟩ := QueryUnescape_eq name
  cases hm : hasMalformedEscape name with
  | true =>
    obtain ⟨e, he⟩ := hbad hm
    simp [GetSanitizedProjectName, he]
  | false =>
    obtain ⟨d, _, hd, _⟩ := hgood hm
    simp [GetSanitizedProjectName, hd]

/-- C3 at the malformed input `%zz`. -/
theorem GetSanitizedProjectName_error_iff_witness :
    GetSanitizedProjectName (str "%zz") = ([], some (Error.EscapeError (str "%zz"))) ∧
    (GetSanitizedProjectName (str "%zz")).1 = [] :=
  ⟨by decide, (GetSanitizedProjectName_error_iff (str "%zz")).2 (by decide)⟩

/-- C4, as stated, fails: `a+b` has no percent-escape and no space, so URL-decoding it and
replacing spaces, as the specification words it, leaves `a+b`; the source decodes with
`url.QueryUnescape`, which reads `+` as a space, and returns `a-b`. -/
theorem GetSanitizedProjectName_decodes_counterexample :
    hasMalformedEscape (str "a+b") = false ∧
    SanitizeProjectName_spec (str "a+b") = some (str "a+b") ∧
    GetSanitizedProjectName (str "a+b") = (str "a-b", none) ∧
    some (GetSanitizedProjectName (str "a+b")).1 ≠ SanitizeProjectName_spec (str "a+b") := by
  decide

/-- C4, amended: for a name whose percent-encoding is well formed,
`GetSanitizedProjectName(name)` succeeds and returns the name decoded as a URL query
component (every `%XY` replaced by the byte with those hexadecimal digits, every `+` by a
space) with every space replaced by a hyphen and no other byte changed, so the result
holds no space; for a name without `+` this is the percent-decoded name with every space
replaced by a hyphen. -/
theorem GetSanitizedProjectName_query_decodes (name : GoString)
    (hwf : hasMalformedEscape name = false) :
    ∃ decoded, queryDecode name = some decoded ∧ QueryUnescape name = (decoded, none) ∧
      GetSanitizedProjectName name = (decoded.map (fun b => if b = 32 then 45 else b), none) ∧
      32 ∉ (GetSanitizedProjectName name).1 ∧
      (43 ∉ name →
        SanitizeProjectName_spec name = some (GetSanitizedProjectName name).1) := by
  obtain ⟨d, h1, h2, _⟩ := (QueryUnescape_eq name).2 hwf
  have h3 : GetSanitizedProjectName name = (d.map (fun b => if b = 32 then 45 else b), none) := by
    simp [GetSanitizedProjectName, h2, ReplaceAllSpaceHyphen]
  refine ⟨d, h1, h2, h3, ?_, ?_⟩
  · rw [h3]
    simp only [List.mem_map, not_exists, not_and]
    intro b _ hb
    by_cases h : b = 32
    · simp [h] at hb
    · simp [h] at hb
  · intro hplus
    unfold SanitizeProjectName_spec
    rw [percentDecode_eq_queryDecode name hplus, h1, h3]
    rfl

/-- C4 amended, at the specification's examples: `my repo` and `my%20repo` both give
`my-repo`, and agree with the specification's decoding. -/
theorem GetSanitizedProjectName_query_decodes_witness :
    GetSanitizedProjectName (str "my repo") = (str "my-repo", none) ∧
    GetSanitizedProjectName (str "my%20repo") = (str "my-repo", none) ∧
    SanitizeProjectName_spec (str "my%20repo") = some (str "my-repo") ∧
    ∃ decoded, queryDecode (str "my%20repo") = some decoded ∧
      QueryUnescape (str "my%20repo") = (decoded, none) ∧
      GetSanitizedProjectName (str "my%20repo")
        = (decoded.map (fun b => if b = 32 then 45 else b), none) ∧
      32 ∉ (GetSanitizedProjectName (str "my%20repo")).1 ∧
      (43 ∉ str "my%20repo" →
        SanitizeProjectName_spec (str "my%20repo")
          = some (GetSanitizedProjectName (str "my%20repo")).1) :=
  ⟨by decide, by decide, by decide,
    GetSanitizedProjectName_query_decodes (str "my%20repo") (by decide)⟩

/-- C10: for a name without `%`, `GetSanitizedProjectName` succeeds and returns the name
with every space and every `+` replaced by `-` and all other bytes unchanged. -/
theorem GetSanitizedProjectName_plus (name : GoString) (hpct : 37 ∉ name) :
    GetSanitizedProjectName name
      = (name.map (fun b => if b = 32 ∨ b = 43 then 45 else b), none) := by
  obtain ⟨d, _, h2, h3⟩ := (QueryUnescape_eq name).2 (hasMalformedEscape_plain name hpct)
  have hd := h3 hpct
  subst hd
  simp only [GetSanitizedProjectName, h2, ReplaceAllSpaceHyphen, List.map_map, Prod.mk.injEq,
    and_true]
  apply List.map_congr_left
  intro b _
  by_cases h43 : b = 43
  · simp [h43]
  · by_cases h32 : b = 32
    · simp [h32]
    · simp [h43, h32]

/-- C10 at the name `c++`, which becomes `c--`. -/
theorem GetSanitizedProjectName_plus_witness :
    GetSanitizedProjectName (str "c++") = (str "c--", none) ∧
    GetSanitizedProjectName (str "c++")
      = ((str "c++").map (fun b => if b = 32 ∨ b = 43 then 45 else b), none) :=
  ⟨by decide, GetSanitizedProjectName_plus (str "c++") (by decide)⟩

/-- C5, as stated, fails: on `https://host/Org/Repo.GIT` (ASCII, so the case table is
never consulted) the source lower-cases before it strips `.git` and returns `repo`,
while stripping first and lower-casing afterwards gives `repo-git`. -/
theorem GetProjectNameFromRepo_order_counterexample :
    GetProjectNameFromRepo (fun r => r) (str "https://host/Org/Repo.GIT") = str "repo" ∧
    SlugifyFromURL_spec (fun r => r) (str "https://host/Org/Repo.GIT") = str "repo-git" ∧
    GetProjectNameFromRepo (fun r => r) (str "https://host/Org/Repo.GIT")
      ≠ SlugifyFromURL_spec (fun r => r) (str "https://host/Org/Repo.GIT") := by
  decide

/-- C5, amended: `GetProjectNameFromRepo(url)` takes the last path segment, lower-cases
it, strips a trailing `.git` from the lower-cased segment and then replaces every rune
outside `[a-zA-Z0-9-]` with a hyphen, so every byte of the result is in that class; it
agrees with the order strip, lower-case, replace whenever the segment ends in `.git` as
written or its lower-casing does not end in `.git`. -/
theorem GetProjectNameFromRepo_lower_then_trim (caseTable : Nat → Nat) (url : GoString) :
    GetProjectNameFromRepo caseTable url
      = projectNameSlugRegexReplaceAll
          (TrimSuffix (ToLower caseTable (Base url)) (str ".git")) ∧
    (∀ b ∈ GetProjectNameFromRepo caseTable url, isSlugRune b = true) ∧
    (HasSuffix (Base url) (str ".git") = true ∨
        HasSuffix (ToLower caseTable (Base url)) (str ".git") = false →
      GetProjectNameFromRepo caseTable url = SlugifyFromURL_spec caseTable url) := by
  refine ⟨rfl, ?_, ?_⟩
  · intro b hb
    unfold GetProjectNameFromRepo projectNameSlugRegexReplaceAll at hb
    obtain ⟨r, _, hr⟩ := List.mem_map.1 hb
    by_cases h : isSlugRune r = true
    · rw [if_pos h] at hr
      rw [← hr]
      exact h
    · rw [if_neg h] at hr
      rw [← hr]
      decide
  · intro h
    unfold GetProjectNameFromRepo SlugifyFromURL_spec
    by_cases hs : HasSuffix (Base url) (str ".git") = true
    · obtain ⟨p, hp⟩ := (HasSuffix_iff _ _).1 hs
      rw [hp, ToLower_append_git, TrimSuffix_append, TrimSuffix_append]
    · have hs2 : HasSuffix (Base url) (str ".git") = false := by simpa using hs
      rcases h with h | h
      · exact absurd h hs
      · rw [TrimSuffix_of_not _ _ h, TrimSuffix_of_not _ _ hs2]

/-- C5 amended, at the specification's example `https://host/Org/My_Repo.git`. -/
theorem GetProjectNameFromRepo_lower_then_trim_witness :
    GetProjectNameFromRepo (fun r => r) (str "https://host/Org/My_Repo.git") = str "my-repo" ∧
    GetProjectNameFromRepo (fun r => r) (str "https://host/Org/My_Repo.git")
      = SlugifyFromURL_spec (fun r => r) (str "https://host/Org/My_Repo.git") :=
  ⟨by decide,
    (GetProjectNameFromRepo_lower_then_trim (fun r => r)
      (str "https://host/Org/My_Repo.git")).2.2 (Or.inl (by decide))⟩

/-! Section: Claims on `GetCreationDataFromPrompt` -/

/-- C6: fail-fast. Whenever a step of the call (a collaborator call or a name
sanitisation) returns an error, that step is the last one taken and the call returns the
empty name, the nil list and that very error; and whenever the call returns an error, the
name is empty, the list is nil and the error is the one of the last step. -/
theorem GetCreationDataFromPrompt_fail_fast {W : Type} (fuel : Nat) (c : Collaborators W)
    (config : CreateDataPromptConfig) (w : W) :
    (∀ ev ∈ (GetCreationDataFromPrompt fuel c config w).2.log, ∀ e, ev.err = some e →
      (GetCreationDataFromPrompt fuel c config w).1 = Outcome.returned [] [] (some e) ∧
      ∃ pre, (GetCreationDataFromPrompt fuel c config w).2.log = pre ++ [ev] ∧ Clean pre) ∧
    (∀ name ps e,
      (GetCreationDataFromPrompt fuel c config w).1 = Outcome.returned name ps (some e) →
      name = [] ∧ ps = [] ∧ FailsWith (GetCreationDataFromPrompt fuel c config w).2.log e) := by
  rcases run_cases fuel c config w with
    ⟨e0, hout, hfail, _, _⟩ | ⟨hout, hclean, _, _, _⟩ | ⟨hout, hclean, _, _, _⟩ |
    ⟨pre, repo, nm, sugg, ps0, res, k, hlog, hpre, _, _, _, _, _, _, _, _, _, hres1, hres2⟩
  · constructor
    · intro ev hev e he
      obtain ⟨h1, h2⟩ := FailsWith_unique _ e0 hfail ev hev e he
      subst h1
      exact ⟨hout, h2⟩
    · intro name ps e h
      rw [hout] at h
      cases h
      exact ⟨rfl, rfl, hfail⟩
  · constructor
    · intro ev hev e he
      have := hclean ev hev
      rw [he] at this
      cases this
    · intro name ps e h
      rw [hout] at h
      cases h
  · constructor
    · intro ev hev e he
      have := hclean ev hev
      rw [he] at this
      cases this
    · intro name ps e h
      rw [hout] at h
      cases h
  · constructor
    · intro ev hev e he
      rw [hlog] at hev
      rcases List.mem_append.1 hev with hin | hin
      · have := hpre ev hin
        rw [he] at this
        cases this
      · simp only [List.mem_singleton] at hin
        subst hin
        have hr : res = some e := by rw [← submission_err sugg ps0 res]; exact he
        exact ⟨hres1 e hr, pre, hlog, hpre⟩
    · intro name ps e h
      cases res with
      | none =>
        obtain ⟨n, ps2, h2⟩ := hres2 rfl
        rw [h2] at h
        cases h
      | some e0 =>
        rw [hres1 e0 rfl] at h
        cases h
        exact ⟨rfl, rfl, pre, _, hlog, hpre, submission_err _ _ _⟩

/-- C6 on a run whose second slot fails after the first project was acquired: the call
returns `("", nil, err)` and the failed form is the last step. -/
theorem GetCreationDataFromPrompt_fail_fast_witness :
    (GetCreationDataFromPrompt 3 (failingSecond ⟨str "demo", str "u"⟩)
        (plainConfig [] true true) ()).1 = Outcome.returned [] [] (some (Error.External 7)) ∧
    (GetCreationDataFromPrompt 3 (failingSecond ⟨str "demo", str "u"⟩)
        (plainConfig [] true true) ()).2.log
      = [Event.urlInput (.ok ⟨str "demo", str "u"⟩),
         Event.sanitize (str "demo") (str "demo", none),
         Event.additionalForm 2 (.error (Error.External 7))] ∧
    ∃ pre, (GetCreationDataFromPrompt 3 (failingSecond ⟨str "demo", str "u"⟩)
        (plainConfig [] true true) ()).2.log
      = pre ++ [Event.additionalForm 2 (.error (Error.External 7))] ∧ Clean pre :=
  ⟨by decide, by decide,
    ((GetCreationDataFromPrompt_fail_fast 3 (failingSecond ⟨str "demo", str "u"⟩)
      (plainConfig [] true true) ()).1 (Event.additionalForm 2 (.error (Error.External 7)))
      (by decide) (Error.External 7) rfl).2⟩

/-- C7, as stated, fails: with `Manual = true` and `MultiProject = false` the URL-input form
returns a repository named `%zz` and no collaborator fails, yet the name does not
sanitise, the call returns the escape error and no project list is handed to the
submission form. -/
theorem GetCreationDataFromPrompt_manual_single_counterexample :
    (GetCreationDataFromPrompt 1 (scripted ⟨str "%zz", str "u"⟩ ⟨str "x", str "v"⟩)
        (plainConfig [] true false) []).2.log
      = [Event.urlInput (.ok ⟨str "%zz", str "u"⟩),
         Event.sanitize (str "%zz") ([], some (Error.EscapeError (str "%zz")))] ∧
    (∀ ev ∈ (GetCreationDataFromPrompt 1 (scripted ⟨str "%zz", str "u"⟩ ⟨str "x", str "v"⟩)
        (plainConfig [] true false) []).2.log, ev.isCall = true → ev.err = none) ∧
    (GetCreationDataFromPrompt 1 (scripted ⟨str "%zz", str "u"⟩ ⟨str "x", str "v"⟩)
        (plainConfig [] true false) []).2.log.filterMap Event.submitted = [] ∧
    (GetCreationDataFromPrompt 1 (scripted ⟨str "%zz", str "u"⟩ ⟨str "x", str "v"⟩)
        (plainConfig [] true false) []).1
      = Outcome.returned [] [] (some (Error.EscapeError (str "%zz"))) := by
  decide

/-- C7, amended: with `Manual = true` and `MultiProject = false`, whatever the providers
are, the wizard is never called and the URL-input form is called exactly once; when that
form returns a repository whose name sanitises without error and `config.Defaults` is
non-nil (fuel covering the name search), the submission form is called exactly once, with
a list of exactly one project, built from that repository; when the name does not
sanitise, the call returns that error and the submission form is not called. -/
theorem GetCreationDataFromPrompt_manual_url_only {W : Type} (fuel : Nat)
    (c : Collaborators W) (config : CreateDataPromptConfig) (w : W)
    (hmanual : config.Manual = true) (hsingle : config.MultiProject = false) :
    (∀ ev ∈ (GetCreationDataFromPrompt fuel c config w).2.log, ev.isWizard = false) ∧
    ((GetCreationDataFromPrompt fuel c config w).2.log.filter Event.isUrlInput).length = 1 ∧
    (∀ repo name d,
      Event.urlInput (.ok repo) ∈ (GetCreationDataFromPrompt fuel c config w).2.log →
      GetSanitizedProjectName repo.Name = (name, none) →
      config.Defaults = some d →
      config.ExistingWorkspaceNames.length ≤ fuel →
      ∃ sugg res, (GetCreationDataFromPrompt fuel c config w).2.log.filterMap Event.submitted
        = [(sugg, [projectRequest d repo name], res)]) ∧
    (∀ repo s err,
      Event.urlInput (.ok repo) ∈ (GetCreationDataFromPrompt fuel c config w).2.log →
      GetSanitizedProjectName repo.Name = (s, some err) →
      (GetCreationDataFromPrompt fuel c config w).1 = Outcome.returned [] [] (some err) ∧
      (GetCreationDataFromPrompt fuel c config w).2.log.filterMap Event.submitted = []) := by
  have hw : wizardEnabled config = false := by simp [wizardEnabled, hmanual]
  unfold GetCreationDataFromPrompt acquireFirst callWizard callUrlInput
  simp only [hw, Bool.false_eq_true, if_false, hsingle]
  rcases hf : c.GetRepositoryFromUrlInput false config.ApiClient [] w with ⟨r, m, w2⟩
  rcases r with e | repo
  · simp only [List.nil_append]
    exact ⟨by simp [Event.isWizard], by simp [Event.isUrlInput], by simp, by simp⟩
  · simp only [callSanitize, Session.push, List.nil_append]
    rcases hsan : GetSanitizedProjectName repo.Name with ⟨name, _ | err⟩
    · simp only
      cases hnew : newCreateProjectRequest config repo name with
      | none =>
        simp only
        refine ⟨by simp [Event.isWizard], by simp [Event.isUrlInput], ?_, ?_⟩
        · intro repo2 name2 d hin _ hd _
          have := newCreateProjectRequest_none _ _ _ hnew
          rw [hd] at this
          cases this
        · intro repo2 s err hin hs
          simp only [List.mem_append, List.mem_cons, List.mem_singleton, Event.urlInput.injEq,
              Except.ok.injEq, reduceCtorEq, List.not_mem_nil, or_false, false_or] at hin
          subst hin
          rw [hsan] at hs
          cases hs
      | some project =>
        simp only [submit]
        obtain ⟨_, hname0, _⟩ := newCreateProjectRequest_some _ _ _ _ hnew
        cases hsug : GetSuggestedWorkspaceName fuel project.Name
            config.ExistingWorkspaceNames with
        | none =>
          simp only
          refine ⟨by simp [Event.isWizard], by simp [Event.isUrlInput], ?_, ?_⟩
          · intro repo2 name2 d _ _ _ hfuel
            have := suggested_none_fuel _ _ _ hsug
            omega
          · intro repo2 s err hin hs
            simp only [List.mem_append, List.mem_cons, List.mem_singleton, Event.urlInput.injEq,
              Except.ok.injEq, reduceCtorEq, List.not_mem_nil, or_false, false_or] at hin
            subst hin
            rw [hsan] at hs
            cases hs
        | some sugg =>
          simp only
          rcases hform : c.RunSubmissionForm [] sugg config.ExistingWorkspaceNames [project]
            config.Defaults w2 with ⟨⟨n, ps, res⟩, w3⟩
          have hkey : ∀ repo2 name2 d,
              Event.urlInput (.ok repo2) ∈ [Event.urlInput (Except.ok repo),
                Event.sanitize repo.Name (name, none), Event.submission sugg [project] res] →
              GetSanitizedProjectName repo2.Name = (name2, none) →
              config.Defaults = some d → project = projectRequest d repo2 name2 := by
            intro repo2 name2 d hin hs hd
            simp only [List.mem_append, List.mem_cons, List.mem_singleton, Event.urlInput.injEq,
              Except.ok.injEq, reduceCtorEq, List.not_mem_nil, or_false, false_or] at hin
            subst hin
            rw [hsan] at hs
            cases hs
            unfold newCreateProjectRequest at hnew
            rw [hd] at hnew
            simp only [Option.some.injEq] at hnew
            exact hnew.symm
          have hbad : ∀ repo2 s err,
              Event.urlInput (.ok repo2) ∈ [Event.urlInput (Except.ok repo),
                Event.sanitize repo.Name (name, none), Event.submission sugg [project] res] →
              GetSanitizedProjectName repo2.Name = (s, some err) → False := by
            intro repo2 s err hin hs
            simp only [List.mem_append, List.mem_cons, List.mem_singleton, Event.urlInput.injEq,
              Except.ok.injEq, reduceCtorEq, List.not_mem_nil, or_false, false_or] at hin
            subst hin
            rw [hsan] at hs
            cases hs
          cases res with
          | none =>
            simp only [List.singleton_append, List.cons_append, List.nil_append]
            refine ⟨by simp [Event.isWizard], by simp [Event.isUrlInput], ?_, ?_⟩
            · intro repo2 name2 d hin hs hd _
              rw [← hkey repo2 name2 d hin hs hd]
              exact ⟨sugg, none, rfl⟩
            · intro repo2 s err hin hs
              exact absurd (hbad repo2 s err hin hs) id
          | some e0 =>
            simp only [List.singleton_append, List.cons_append, List.nil_append]
            refine ⟨by simp [Event.isWizard], by simp [Event.isUrlInput], ?_, ?_⟩
            · intro repo2 name2 d hin hs hd _
              rw [← hkey repo2 name2 d hin hs hd]
              exact ⟨sugg, some e0, rfl⟩
            · intro repo2 s err hin hs
              exact absurd (hbad repo2 s err hin hs) id
    · simp only
      refine ⟨by simp [Event.isWizard], by simp [Event.isUrlInput], ?_, ?_⟩
      · intro repo2 name2 d hin hs _ _
        simp only [List.mem_append, List.mem_cons, List.mem_singleton, Event.urlInput.injEq,
              Except.ok.injEq, reduceCtorEq, List.not_mem_nil, or_false, false_or] at hin
        subst hin
        rw [hsan] at hs
        cases hs
      · intro repo2 s err2 hin hs
        simp only [List.mem_append, List.mem_cons, List.mem_singleton, Event.urlInput.injEq,
              Except.ok.injEq, reduceCtorEq, List.not_mem_nil, or_false, false_or] at hin
        subst hin
        rw [hsan] at hs
        cases hs
        exact ⟨rfl, rfl⟩

/-- C7 amended, on a manual single-project run with providers configured: one URL-form
call, no wizard call, and one submission call with the one project of that repository. -/
theorem GetCreationDataFromPrompt_manual_url_only_witness :
    (GetCreationDataFromPrompt 1 (scripted ⟨str "demo", str "u"⟩ ⟨str "x", str "v"⟩)
        { plainConfig [str "demo"] true false with UserGitProviders := [⟨str "github"⟩] }
        []).2.log
      = [Event.urlInput (.ok ⟨str "demo", str "u"⟩),
         Event.sanitize (str "demo") (str "demo", none),
         Event.submission (str "demo2")
           [projectRequest plainDefaults ⟨str "demo", str "u"⟩ (str "demo")] none] ∧
    ∃ sugg res,
      (GetCreationDataFromPrompt 1 (scripted ⟨str "demo", str "u"⟩ ⟨str "x", str "v"⟩)
        { plainConfig [str "demo"] true false with UserGitProviders := [⟨str "github"⟩] }
        []).2.log.filterMap Event.submitted
      = [(sugg, [projectRequest plainDefaults ⟨str "demo", str "u"⟩ (str "demo")], res)] :=
  ⟨by decide,
    (GetCreationDataFromPrompt_manual_url_only 1
      (scripted ⟨str "demo", str "u"⟩ ⟨str "x", str "v"⟩)
      { plainConfig [str "demo"] true false with UserGitProviders := [⟨str "github"⟩] }
      [] rfl rfl).2.2.1 ⟨str "demo", str "u"⟩ (str "demo") plainDefaults
      (by decide) (by decide) rfl (by decide)⟩

/-- C8: whenever the submission form is called, the suggested name it receives is
`GetSuggestedWorkspaceName` applied to the sanitised `Name` of the first repository
acquired in the run and to `config.ExistingWorkspaceNames`, whatever was acquired later;
every run that returns without error has called the submission form; and
`projectList[0]` is always in range. -/
theorem GetCreationDataFromPrompt_suggested_name {W : Type} (fuel : Nat)
    (c : Collaborators W) (config : CreateDataPromptConfig) (w : W) :
    (∀ sugg ps res,
      Event.submission sugg ps res ∈ (GetCreationDataFromPrompt fuel c config w).2.log →
      ∃ repo name,
        ((GetCreationDataFromPrompt fuel c config w).2.log.filterMap Event.repo).head?
          = some repo ∧
        GetSanitizedProjectName repo.Name = (name, none) ∧
        GetSuggestedWorkspaceName fuel name config.ExistingWorkspaceNames = some sugg) ∧
    (∀ n ps, (GetCreationDataFromPrompt fuel c config w).1 = Outcome.returned n ps none →
      ∃ sugg ps0, Event.submission sugg ps0 none
        ∈ (GetCreationDataFromPrompt fuel c config w).2.log) ∧
    (GetCreationDataFromPrompt fuel c config w).1 ≠ Outcome.indexPanic := by
  rcases run_cases fuel c config w with
    ⟨e0, hout, _, hsub, _⟩ | ⟨hout, _, hsub, _, _⟩ | ⟨hout, _, hsub, _, _⟩ |
    ⟨pre, repo, nm, sugg0, ps0, res0, k, hlog, hpre, hsub, hrepo, hsan, hsug, _, _, _, _, _,
      hres1, hres2⟩
  · refine ⟨?_, ?_, ?_⟩
    · intro sugg ps res h
      have := submitted_mem _ sugg ps res h
      rw [hsub] at this
      cases this
    · intro n ps h
      rw [hout] at h
      cases h
    · rw [hout]
      intro h
      cases h
  · refine ⟨?_, ?_, ?_⟩
    · intro sugg ps res h
      have := submitted_mem _ sugg ps res h
      rw [hsub] at this
      cases this
    · intro n ps h
      rw [hout] at h
      cases h
    · rw [hout]
      intro h
      cases h
  · refine ⟨?_, ?_, ?_⟩
    · intro sugg ps res h
      have := submitted_mem _ sugg ps res h
      rw [hsub] at this
      cases this
    · intro n ps h
      rw [hout] at h
      cases h
    · rw [hout]
      intro h
      cases h
  · refine ⟨?_, ?_, ?_⟩
    · intro sugg ps res h
      rw [hlog] at h
      obtain ⟨rfl, rfl, rfl⟩ := submission_last pre sugg sugg0 ps ps0 res res0 hsub h
      refine ⟨repo, nm, ?_, hsan, hsug⟩
      rw [hlog, List.filterMap_append]
      cases hl : pre.filterMap Event.repo with
      | nil => rw [hl] at hrepo; cases hrepo
      | cons x xs => rw [hl] at hrepo; simpa using hrepo
    · intro n ps h
      cases res0 with
      | none => exact ⟨sugg0, ps0, by rw [hlog]; simp⟩
      | some e0 =>
        rw [hres1 e0 rfl] at h
        cases h
    · cases res0 with
      | none =>
        obtain ⟨n, ps2, h2⟩ := hres2 rfl
        rw [h2]
        intro h
        cases h
      | some e0 =>
        rw [hres1 e0 rfl]
        intro h
        cases h

/-- C8 at the specification's example: `demo` is taken and the first repository is named
`demo`, so the submission form is offered `demo2`, also when a second project
follows. -/
theorem GetCreationDataFromPrompt_suggested_name_witness :
    (GetCreationDataFromPrompt 2 (scripted ⟨str "demo", str "u"⟩ ⟨str "x y", str "v"⟩)
        (plainConfig [str "demo"] false true) [false]).2.log
      = [Event.urlInput (.ok ⟨str "demo", str "u"⟩),
         Event.sanitize (str "demo") (str "demo", none),
         Event.additionalForm 2 (.ok (⟨str "x y", str "v"⟩, false)),
         Event.sanitize (str "x y") (str "x-y", none),
         Event.submission (str "demo2")
           [projectRequest plainDefaults ⟨str "demo", str "u"⟩ (str "demo"),
            projectRequest plainDefaults ⟨str "x y", str "v"⟩ (str "x-y")] none] ∧
    GetSuggestedWorkspaceName 2 (str "demo") [str "demo"] = some (str "demo2") ∧
    ∃ sugg ps0, Event.submission sugg ps0 none
      ∈ (GetCreationDataFromPrompt 2 (scripted ⟨str "demo", str "u"⟩ ⟨str "x y", str "v"⟩)
          (plainConfig [str "demo"] false true) [false]).2.log :=
  ⟨by decide, by decide,
    (GetCreationDataFromPrompt_suggested_name 2
      (scripted ⟨str "demo", str "u"⟩ ⟨str "x y", str "v"⟩)
      (plainConfig [str "demo"] false true) [false]).2.1 (str "demo2")
      [projectRequest plainDefaults ⟨str "demo", str "u"⟩ (str "demo"),
        projectRequest plainDefaults ⟨str "x y", str "v"⟩ (str "x-y")] (by decide)⟩

/-- C9, as stated, fails: with `MultiProject = true` and no collaborator failing, slot 2
returns a repository named `b%` with the decision true; the name does not sanitise, so
the loop ends after a slot whose decision was true and no list reaches the submission
form. -/
theorem GetCreationDataFromPrompt_additional_loop_counterexample :
    (GetCreationDataFromPrompt 3 (scripted ⟨str "a", str "u"⟩ ⟨str "b%", str "v"⟩)
        (plainConfig [] false true) [true, false]).2.log
      = [Event.urlInput (.ok ⟨str "a", str "u"⟩),
         Event.sanitize (str "a") (str "a", none),
         Event.additionalForm 2 (.ok (⟨str "b%", str "v"⟩, true)),
         Event.sanitize (str "b%") ([], some (Error.EscapeError (str "%")))] ∧
    (∀ ev ∈ (GetCreationDataFromPrompt 3 (scripted ⟨str "a", str "u"⟩ ⟨str "b%", str "v"⟩)
        (plainConfig [] false true) [true, false]).2.log, ev.isCall = true → ev.err = none) ∧
    (GetCreationDataFromPrompt 3 (scripted ⟨str "a", str "u"⟩ ⟨str "b%", str "v"⟩)
        (plainConfig [] false true) [true, false]).2.log.filterMap Event.decision
      = [(2, true)] ∧
    (GetCreationDataFromPrompt 3 (scripted ⟨str "a", str "u"⟩ ⟨str "b%", str "v"⟩)
        (plainConfig [] false true) [true, false]).2.log.filterMap Event.submitted = [] ∧
    (GetCreationDataFromPrompt 3 (scripted ⟨str "a", str "u"⟩ ⟨str "b%", str "v"⟩)
        (plainConfig [] false true) [true, false]).1
      = Outcome.returned [] [] (some (Error.EscapeError (str "%"))) := by
  decide

/-- C9, amended: with `MultiProject = true`, when no step fails (no collaborator call and
no name sanitisation), `config.Defaults` is non-nil and a false decision has been given
(fuel covering the name search), the loop visited the slots `2, 3, ..., k + 1` for some
`k ≥ 1`, got the decision true in all of them but the last and false in the last, and the
submission form is called exactly once, with the `1 + k` acquired repositories in order,
after which the call returns; any list handed to the submission form has that shape. With
`MultiProject = false` no decision is asked and, under the same conditions, the submission
form is called exactly once with a list of one project. -/
theorem GetCreationDataFromPrompt_loop_until_declined {W : Type} (fuel : Nat)
    (c : Collaborators W) (config : CreateDataPromptConfig) (w : W) :
    (config.MultiProject = true →
      Clean (GetCreationDataFromPrompt fuel c config w).2.log →
      config.Defaults ≠ none →
      (∃ i, (i, false)
        ∈ (GetCreationDataFromPrompt fuel c config w).2.log.filterMap Event.decision) →
      config.ExistingWorkspaceNames.length ≤ fuel →
      ∃ k sugg ps n ps2, 1 ≤ k ∧
        (GetCreationDataFromPrompt fuel c config w).2.log.filterMap Event.decision
          = (List.range k).map (fun j => (2 + j, decide (j + 1 < k))) ∧
        (GetCreationDataFromPrompt fuel c config w).2.log.filterMap Event.submitted
          = [(sugg, ps, none)] ∧
        ps.length = 1 + k ∧
        ps.map (fun p => p.Source)
          = (GetCreationDataFromPrompt fuel c config w).2.log.filterMap Event.repo ∧
        (GetCreationDataFromPrompt fuel c config w).1 = Outcome.returned n ps2 none) ∧
    (config.MultiProject = true → ∀ sugg ps res,
      Event.submission sugg ps res ∈ (GetCreationDataFromPrompt fuel c config w).2.log →
      ∃ k, 1 ≤ k ∧
        (GetCreationDataFromPrompt fuel c config w).2.log.filterMap Event.decision
          = (List.range k).map (fun j => (2 + j, decide (j + 1 < k))) ∧
        ps.length = 1 + k ∧
        ps.map (fun p => p.Source)
          = (GetCreationDataFromPrompt fuel c config w).2.log.filterMap Event.repo) ∧
    (config.MultiProject = false →
      (GetCreationDataFromPrompt fuel c config w).2.log.filterMap Event.decision = [] ∧
      (∀ sugg ps res,
        Event.submission sugg ps res ∈ (GetCreationDataFromPrompt fuel c config w).2.log →
        ps.length = 1) ∧
      (Clean (GetCreationDataFromPrompt fuel c config w).2.log →
        config.Defaults ≠ none →
        config.ExistingWorkspaceNames.length ≤ fuel →
        ∃ sugg p, (GetCreationDataFromPrompt fuel c config w).2.log.filterMap Event.submitted
          = [(sugg, [p], none)])) := by
  have hsubm : ∀ (sugg : GoString) (ps : List CreateWorkspaceRequestProject)
      (res : Option Error), Event.decision (Event.submission sugg ps res) = none ∧
      Event.repo (Event.submission sugg ps res) = none := fun _ _ _ => ⟨rfl, rfl⟩
  have hnosub : ∀ l : List Event, l.filterMap Event.submitted = [] →
      ∀ sugg ps res, Event.submission sugg ps res ∈ l → False := by
    intro l hl sugg ps res h
    have := submitted_mem l sugg ps res h
    rw [hl] at this
    cases this
  rcases run_cases fuel c config w with
    ⟨e0, hout, hfail, hsub, hdec⟩ | ⟨hout, hclean, hsub, hdec, hcause⟩ |
    ⟨hout, hclean, hsub, hdec, hnil⟩ |
    ⟨pre, repo, nm, sugg0, ps0, res0, k, hlog, hpre, hsub, hrepo, hsan, hsug, hsrc, hlen,
      hdecs, hk1, hk0, hres1, hres2⟩
  · refine ⟨?_, ?_, ?_⟩
    · intro _ hc
      exact absurd hc (FailsWith_not_clean _ e0 hfail)
    · intro _ sugg ps res h
      exact absurd (hnosub _ hsub sugg ps res h) id
    · intro hm
      refine ⟨hdec hm, fun sugg ps res h => absurd (hnosub _ hsub sugg ps res h) id, ?_⟩
      intro hc
      exact absurd hc (FailsWith_not_clean _ e0 hfail)
  · refine ⟨?_, ?_, ?_⟩
    · intro _ _ _ hfalse hfuel
      rcases hcause with ⟨_, hall⟩ | hlt
      · obtain ⟨i, hi⟩ := hfalse
        have := hall (i, false) hi
        cases this
      · omega
    · intro _ sugg ps res h
      exact absurd (hnosub _ hsub sugg ps res h) id
    · intro hm
      refine ⟨hdec hm, fun sugg ps res h => absurd (hnosub _ hsub sugg ps res h) id, ?_⟩
      intro _ _ hfuel
      rcases hcause with ⟨hm2, _⟩ | hlt
      · rw [hm] at hm2
        cases hm2
      · omega
  · refine ⟨?_, ?_, ?_⟩
    · intro _ _ hd
      exact absurd hnil hd
    · intro _ sugg ps res h
      exact absurd (hnosub _ hsub sugg ps res h) id
    · intro hm
      refine ⟨hdec hm, fun sugg ps res h => absurd (hnosub _ hsub sugg ps res h) id, ?_⟩
      intro _ hd
      exact absurd hnil hd
  · have hd : (GetCreationDataFromPrompt fuel c config w).2.log.filterMap Event.decision
        = pre.filterMap Event.decision := by
      rw [hlog, List.filterMap_append]
      simp [(hsubm sugg0 ps0 res0).1]
    have hr : (GetCreationDataFromPrompt fuel c config w).2.log.filterMap Event.repo
        = pre.filterMap Event.repo := by
      rw [hlog, List.filterMap_append]
      simp [(hsubm sugg0 ps0 res0).2]
    have hs : (GetCreationDataFromPrompt fuel c config w).2.log.filterMap Event.submitted
        = [(sugg0, ps0, res0)] := by
      rw [hlog, List.filterMap_append, hsub]
      rfl
    have hnone : Clean (GetCreationDataFromPrompt fuel c config w).2.log → res0 = none := by
      intro hc
      have := hc (Event.submission sugg0 ps0 res0) (by rw [hlog]; simp)
      rw [submission_err] at this
      exact this
    refine ⟨?_, ?_, ?_⟩
    · intro hm hc _ _ _
      have hres := hnone hc
      obtain ⟨n, ps2, hret⟩ := hres2 hres
      refine ⟨k, sugg0, ps0, n, ps2, (hk1 hm).1, by rw [hd, hdecs], ?_, hlen,
        by rw [hr, hsrc], hret⟩
      rw [hs, hres]
    · intro hm sugg ps res h
      rw [hlog] at h
      obtain ⟨rfl, rfl, rfl⟩ := submission_last pre sugg sugg0 ps ps0 res res0 hsub h
      exact ⟨k, (hk1 hm).1, by rw [hd, hdecs], hlen, by rw [hr, hsrc]⟩
    · intro hm
      have hk := hk0 hm
      subst hk
      refine ⟨by rw [hd, hdecs]; rfl, ?_, ?_⟩
      · intro sugg ps res h
        rw [hlog] at h
        obtain ⟨rfl, rfl, rfl⟩ := submission_last pre sugg sugg0 ps ps0 res res0 hsub h
        exact hlen
      · intro hc _ _
        have hres := hnone hc
        match ps0, hlen with
        | [p], _ => exact ⟨sugg0, p, by rw [hs, hres]⟩

/-- C9 amended, on a run whose user asks for more twice and then stops: slots 2, 3 and 4
are visited and the submission form is called once with four projects. -/
theorem GetCreationDataFromPrompt_loop_until_declined_witness :
    (GetCreationDataFromPrompt 3 (scripted ⟨str "a", str "u"⟩ ⟨str "b", str "v"⟩)
        (plainConfig [] false true) [true, true, false]).2.log.filterMap Event.decision
      = [(2, true), (3, true), (4, false)] ∧
    (GetCreationDataFromPrompt 3 (scripted ⟨str "a", str "u"⟩ ⟨str "b", str "v"⟩)
        (plainConfig [] false true) [true, true, false]).2.log.filterMap Event.submitted
      = [(str "a",
          [projectRequest plainDefaults ⟨str "a", str "u"⟩ (str "a"),
           projectRequest plainDefaults ⟨str "b", str "v"⟩ (str "b"),
           projectRequest plainDefaults ⟨str "b", str "v"⟩ (str "b"),
           projectRequest plainDefaults ⟨str "b", str "v"⟩ (str "b")], none)] ∧
    ∃ k sugg ps n ps2, 1 ≤ k ∧
      (GetCreationDataFromPrompt 3 (scripted ⟨str "a", str "u"⟩ ⟨str "b", str "v"⟩)
          (plainConfig [] false true) [true, true, false]).2.log.filterMap Event.decision
        = (List.range k).map (fun j => (2 + j, decide (j + 1 < k))) ∧
      (GetCreationDataFromPrompt 3 (scripted ⟨str "a", str "u"⟩ ⟨str "b", str "v"⟩)
          (plainConfig [] false true) [true, true, false]).2.log.filterMap Event.submitted
        = [(sugg, ps, none)] ∧
      ps.length = 1 + k ∧
      ps.map (fun p => p.Source)
        = (GetCreationDataFromPrompt 3 (scripted ⟨str "a", str "u"⟩ ⟨str "b", str "v"⟩)
            (plainConfig [] false true) [true, true, false]).2.log.filterMap Event.repo ∧
      (GetCreationDataFromPrompt 3 (scripted ⟨str "a", str "u"⟩ ⟨str "b", str "v"⟩)
          (plainConfig [] false true) [true, true, false]).1 = Outcome.returned n ps2 none :=
  ⟨by decide, by decide,
    (GetCreationDataFromPrompt_loop_until_declined 3
      (scripted ⟨str "a", str "u"⟩ ⟨str "b", str "v"⟩)
      (plainConfig [] false true) [true, true, false]).1 rfl
      (by
        intro ev hev
        have h : ∀ x ∈ (GetCreationDataFromPrompt 3
            (scripted ⟨str "a", str "u"⟩ ⟨str "b", str "v"⟩)
            (plainConfig [] false true) [true, true, false]).2.log, x.err = none := by decide
        exact h ev hev)
      (by decide) ⟨4, by decide⟩ (by decide)⟩

end CreationData
